import Mathlib

/-!
Verification development for `pulse` (package `whisper` and package `retry`).

Two parts of the repository are embedded here:

* `src/pkg/protocol/retry/retry.go`: `Params`, `BackoffFor`, `Backoff`;
* `src/message.go`: `Message`, `Ack`, `Nack`, `done`, `ToByte`, `ToMessage`, `Encode`,
  `Decode`.

Go's `int` is taken at its 64-bit width, `time.Duration` is a signed 64-bit
count of nanoseconds, and signed arithmetic wraps modulo `2^64`.
-/

namespace Retry

/-! ## Durations and 64-bit wrap-around -/

/-- Go's `time.Duration`: a signed 64-bit number of nanoseconds, carried as an
`Int` that the arithmetic below wraps into the `int64` range. -/
abbrev Duration := Int

/-- Constant `time.Nanosecond`. -/
def Nanosecond : Duration := 1

/-- Constant `time.Microsecond`. -/
def Microsecond : Duration := 1000 * Nanosecond

/-- Constant `time.Millisecond`. -/
def Millisecond : Duration := 1000 * Microsecond

/-- Two's-complement reduction of an integer to the `int64` range
`[-2^63, 2^63)`: the value a Go `int64` operation leaves after overflow. -/
def wrapInt64 (x : Int) : Int := (x + 2 ^ 63) % 2 ^ 64 - 2 ^ 63

/-- Multiplication of two `time.Duration` values, as Go evaluates `a * b`. -/
def mulDuration (a b : Duration) : Duration := wrapInt64 (a * b)

/-! ## `math.Exp2` at an integer argument and the conversion to `int64` -/

/-- The `float64` values `math.Exp2(float64(tries))` can take: every one of
them is zero, an exact power of two, or `+Inf`. -/
inductive Float64Pow2 where
  | zero : Float64Pow2
  | pow2 (e : Int) : Float64Pow2
  | posInf : Float64Pow2
  deriving DecidableEq, Repr

/-- Value of `math.Exp2(float64(tries))`. `float64(tries)` is exact for
`|tries| ≤ 2^53` and otherwise stays far beyond the two thresholds, so the case
taken is decided by `tries` itself: `Exp2` answers `+Inf` above its `Overflow`
threshold (`1023.99…`), `0` below its `Underflow` threshold (`-1074`), and for an
integer argument in between the exactly representable `2^tries`. -/
def Exp2 (tries : Int) : Float64Pow2 :=
  if tries > 1023 then Float64Pow2.posInf
  else if tries < -1074 then Float64Pow2.zero
  else Float64Pow2.pow2 tries

/-- The part of Go's `float64`-to-`int64` conversion that the language leaves
to the implementation: the result for a value outside the `int64` range. -/
structure Arch where
  /-- Result of converting a value that `int64` cannot represent. -/
  outOfRange : Float64Pow2 → Int

/-- On amd64 the conversion instruction answers `-2^63` for every value that is
out of range. -/
def amd64 : Arch := ⟨fun _ => -(2 : Int) ^ 63⟩

/-- On arm64 the conversion saturates at the largest `int64`. -/
def arm64 : Arch := ⟨fun _ => (2 : Int) ^ 63 - 1⟩

/-- Conversion `time.Duration(exp)` of the `float64` value `exp`: the fraction
is discarded (truncation towards zero), a power of two up to `2^62` is kept, and
a value outside the `int64` range is converted as the implementation does. -/
def toDuration (arch : Arch) : Float64Pow2 → Duration
  | Float64Pow2.zero => 0
  | Float64Pow2.pow2 e =>
      if e < 0 then 0
      else if e ≤ 62 then (2 : Int) ^ e.toNat
      else wrapInt64 (arch.outOfRange (Float64Pow2.pow2 e))
  | Float64Pow2.posInf => wrapInt64 (arch.outOfRange Float64Pow2.posInf)

/-! ## `retry.go` -/

/-- Named string type `BackoffStrategy`. -/
abbrev BackoffStrategy := String

/-- Constant `BackoffStrategyNone`. -/
def BackoffStrategyNone : BackoffStrategy := "none"

/-- Constant `BackoffStrategyConstant`. -/
def BackoffStrategyConstant : BackoffStrategy := "constant"

/-- Constant `BackoffStrategyLinear`. -/
def BackoffStrategyLinear : BackoffStrategy := "linear"

/-- Constant `BackoffStrategyExponential`. -/
def BackoffStrategyExponential : BackoffStrategy := "exponential"

/-- The struct `Params`: the parameters applied to retries. -/
structure Params where
  /-- The backoff strategy applied between retries. -/
  Strategy : BackoffStrategy
  /-- The bound `Backoff` compares the try count with. -/
  MaxTries : Int
  /-- The base duration of the strategy. -/
  Period : Duration

/-- The variable `DefaultRetryParams`. -/
def DefaultRetryParams : Params :=
  { Strategy := BackoffStrategyLinear, MaxTries := 30, Period := 10 * Millisecond }

/-- The two error values `Backoff` can return. -/
inductive BackoffError where
  | ErrCancel : BackoffError
  | ErrMaxRetry : BackoffError
  deriving DecidableEq, Repr

/-- Method `(r *Params) BackoffFor(tries int) time.Duration`: the `switch` on
`r.Strategy`, its cases in the order of the source. The conversion
`time.Duration(tries)` of an `int` keeps the value. -/
def Params.BackoffFor (arch : Arch) (r : Params) (tries : Int) : Duration :=
  if r.Strategy = BackoffStrategyConstant then r.Period
  else if r.Strategy = BackoffStrategyLinear then mulDuration r.Period tries
  else if r.Strategy = BackoffStrategyExponential then
    mulDuration r.Period (toDuration arch (Exp2 tries))
  else if r.Strategy = BackoffStrategyNone then r.Period
  else r.Period

/-- How a call ended: it returned an `error` value (`none` is Go's `nil`), or it
panicked. -/
inductive Outcome where
  | returned (err : Option BackoffError) : Outcome
  | panicked (reason : String) : Outcome
  deriving DecidableEq, Repr

/-- What `Backoff` does after its guard, in the order it does it: the call of
`BackoffFor`, the creation of a ticker by `time.NewTicker`, the blocking
`select`, and `ticker.Stop()`. -/
inductive BackoffEvent where
  | backoffFor (tries : Int) : BackoffEvent
  | newTicker (d : Duration) : BackoffEvent
  | wait : BackoffEvent
  | stop : BackoffEvent
  deriving DecidableEq, Repr

/-- The surroundings of one `Backoff` call, instants counted in nanoseconds
from the call: when the cancellation signal becomes ready (`none`: never; zero
or less: already cancelled), when the goroutine reaches the `select`, and which
case `select` takes, as its random choice, when both channels are ready at the
same instant. -/
structure WaitEnv where
  /-- Instant at which `ctx.Done()` becomes ready. -/
  cancelAt : Option Int
  /-- Instant at which the goroutine reaches the `select`. -/
  selectAt : Int
  /-- Whether `select` takes the `ctx.Done()` case when both are ready. -/
  preferDone : Bool

/-- The `select` of `Backoff`: `true` when the `ctx.Done()` case is the one
taken, for a ticker whose first tick comes after `d`. A channel that became
ready before the goroutine reached the `select` is ready when it gets there; the
case ready first is taken, and among cases ready at the same instant `select`
chooses at random. -/
def WaitEnv.cancelledFirst (env : WaitEnv) (d : Duration) : Bool :=
  match env.cancelAt with
  | none => false
  | some c =>
      decide (max c env.selectAt < max d env.selectAt) ||
        (decide (max c env.selectAt = max d env.selectAt) && env.preferDone)

/-- Method `(r *Params) Backoff(ctx, tries int) error`, with the events of the
call. `time.NewTicker(d)` panics when `d` is not positive ("non-positive interval
for NewTicker"), before any ticker exists; the event `newTicker` stands for a
ticker that was created. -/
def Params.Backoff (arch : Arch) (r : Params) (env : WaitEnv) (tries : Int) :
    Outcome × List BackoffEvent :=
  if tries > r.MaxTries then (Outcome.returned (some BackoffError.ErrMaxRetry), [])
  else
    let d := r.BackoffFor arch tries
    if d ≤ 0 then
      (Outcome.panicked "non-positive interval for NewTicker",
        [BackoffEvent.backoffFor tries])
    else if env.cancelledFirst d then
      (Outcome.returned (some BackoffError.ErrCancel),
        [BackoffEvent.backoffFor tries, BackoffEvent.newTicker d, BackoffEvent.wait,
          BackoffEvent.stop])
    else
      (Outcome.returned none,
        [BackoffEvent.backoffFor tries, BackoffEvent.newTicker d, BackoffEvent.wait,
          BackoffEvent.stop])

/-- A ticker was created by this event. -/
def BackoffEvent.isNewTicker : BackoffEvent → Bool
  | BackoffEvent.newTicker _ => true
  | _ => false

/-- The event is a call of `ticker.Stop()`. -/
def BackoffEvent.isStop : BackoffEvent → Bool
  | BackoffEvent.stop => true
  | _ => false

/-- The call `Backoff(ctx, tries)` was not answered with `ErrMaxRetry`. -/
def Params.notRejected (arch : Arch) (r : Params) (env : WaitEnv) (tries : Int) : Bool :=
  decide ((r.Backoff arch env tries).1 ≠ Outcome.returned (some BackoffError.ErrMaxRetry))

/-- A retry sequence: the caller calls `Backoff` with `tries = 0, 1, ..., k - 1`,
the number of retries it has made so far, the `t`-th call in surroundings
`envs t`. The value is the number of those calls not answered with
`ErrMaxRetry`. -/
def Params.retriesGranted (arch : Arch) (r : Params) (envs : Nat → WaitEnv) (k : Nat) : Nat :=
  ((List.range k).filter fun t => r.notRejected arch (envs t) (t : Int)).length

end Retry

namespace Whisper

/-! ## `message.go` -/

/-- Go's `time.Time`, carried as an instant counted in nanoseconds. -/
abbrev Time := Int

/-- How a call of a Go function ended: it returned, or it panicked. -/
inductive Ended where
  | returned : Ended
  | panicked (reason : String) : Ended
  deriving DecidableEq, Repr

/-- A completion callback, `func(string,bool,time.Time)`. It acts on the state
`W` of the transport driver that bound it; the answer is the state it leaves and
how it ended. -/
abbrev DoneFunc (W : Type) := String → Bool → Time → W → W × Ended

/-- The struct `Message`. `Header` stands for `internal.Header`, whose
declaration is outside the sources; `doneFunc` is `none` for Go's nil function
value. -/
structure Message (Header W : Type) where
  /-- Message identifier. -/
  Id : String
  /-- Message data. -/
  Data : List UInt8
  /-- Message header. -/
  Attributes : Header
  /-- Topic name. -/
  Topic : String
  /-- Acknowledgment token. -/
  AckID : String
  /-- Unexported field `specversion`. -/
  specversion : String
  /-- Unexported field `typeName`. -/
  typeName : String
  /-- Unexported field `source`. -/
  source : String
  /-- Unexported field `destination`. -/
  destination : String
  /-- Publish timestamp. -/
  publishTime : Time
  /-- Receive timestamp. -/
  receiveTime : Time
  /-- The completion flag. -/
  calledDone : Bool
  /-- The bound completion callback. -/
  doneFunc : Option (DoneFunc W)

/-- One invocation of a completion callback: the three arguments passed. -/
structure Invocation where
  /-- First argument: the acknowledgment token. -/
  ackID : String
  /-- Second argument: `true` from `Ack`, `false` from `Nack`. -/
  success : Bool
  /-- Third argument: the receive time. -/
  receiveTime : Time
  deriving DecidableEq, Repr

/-- The state a call of `Ack` or `Nack` runs in: the message behind the pointer
receiver, the state of the driver the callback acts on, and the record of the
callback invocations made so far, oldest first. -/
structure Exec (Header W : Type) where
  /-- The message `m` points to. -/
  msg : Message Header W
  /-- The state the callback acts on. -/
  world : W
  /-- The invocations of `doneFunc` so far. -/
  calls : List Invocation

/-- Method `(m *Message) done(ack bool)`. The field `m.ackID` the source names in
the call is read as the field `AckID`, the only acknowledgment token of
`Message`. Calling the nil function value panics, after the flag was set. -/
def Message.done {Header W : Type} (s : Exec Header W) (ack : Bool) :
    Exec Header W × Ended :=
  if s.msg.calledDone then (s, Ended.returned)
  else
    let m : Message Header W := { s.msg with calledDone := true }
    match m.doneFunc with
    | none =>
        ({ s with msg := m }, Ended.panicked "invalid memory address or nil pointer dereference")
    | some f =>
        let r := f m.AckID ack m.receiveTime s.world
        ({ msg := m, world := r.1,
           calls := s.calls ++ [{ ackID := m.AckID, success := ack, receiveTime := m.receiveTime }] },
          r.2)

/-- Method `(m *Message) Ack()`. -/
def Message.Ack {Header W : Type} (s : Exec Header W) : Exec Header W × Ended :=
  Message.done s true

/-- Method `(m *Message) Nack()`. -/
def Message.Nack {Header W : Type} (s : Exec Header W) : Exec Header W × Ended :=
  Message.done s false

/-- The two calls a client makes on a message. -/
inductive Call where
  | Ack : Call
  | Nack : Call
  deriving DecidableEq, Repr

/-- The `success` argument a call passes to `done`. -/
def Call.success : Call → Bool
  | Call.Ack => true
  | Call.Nack => false

/-- One call of `Ack` or `Nack`. -/
def Message.call {Header W : Type} (s : Exec Header W) : Call → Exec Header W × Ended
  | Call.Ack => Message.Ack s
  | Call.Nack => Message.Nack s

/-- A sequence of calls made one after another on the same message, each on the
state the one before left (a caller that recovers from a panic goes on with the
next call): the final state and how each call ended. -/
def runCalls {Header W : Type} (s : Exec Header W) : List Call → Exec Header W × List Ended
  | [] => (s, [])
  | c :: cs =>
      let r := Message.call s c
      let rest := runCalls r.1 cs
      (rest.1, r.2 :: rest.2)

/-- The invocation `done` makes for message `m` when called with `ack`. -/
def Message.invocation {Header W : Type} (m : Message Header W) (ack : Bool) : Invocation :=
  { ackID := m.AckID, success := ack, receiveTime := m.receiveTime }

/-- A message as `ToMessage` builds it before decoding, `&Message{}`: every
field at its zero value, so the flag is clear and no callback is bound. The
decoder fills exported fields only. -/
def zeroMessage (W : Type) : Message (List (String × String)) W :=
  { Id := "", Data := [], Attributes := [], Topic := "", AckID := "", specversion := "",
    typeName := "", source := "", destination := "", publishTime := 0, receiveTime := 0,
    calledDone := false, doneFunc := none }

/-- A callback that returns normally and leaves the driver's state alone. -/
def quietCallback : DoneFunc Unit := fun _ _ _ w => (w, Ended.returned)

/-- A delivered message: flag clear, a callback bound. -/
def deliveredMessage : Message (List (String × String)) Unit :=
  { zeroMessage Unit with
    Id := "m-1", Topic := "hello", AckID := "ack-1", receiveTime := 42,
    doneFunc := some quietCallback }

/-! ## Goroutines racing on one message -/

/-- Where a goroutine stands inside `done`: before the test of the flag
(line 85), before the assignment to the flag (line 88), before the call of the
callback (line 89), or after its return. -/
inductive Pc where
  | atCheck : Pc
  | atSet : Pc
  | atCall : Pc
  | finished : Pc
  deriving DecidableEq, Repr

/-- A goroutine that called `Ack` (`ack = true`) or `Nack` on the message. -/
structure Caller where
  /-- The argument of `done`. -/
  ack : Bool
  /-- The statement the goroutine executes next. -/
  pc : Pc
  deriving DecidableEq, Repr

/-- One statement of `done` executed by one goroutine on the shared message.
A goroutine is `finished` when it has left `done`, whether the callback returned
or the call panicked (as the call of a nil function value does). -/
def stepCaller {Header W : Type} (s : Exec Header W) (c : Caller) : Exec Header W × Caller :=
  match c.pc with
  | Pc.atCheck =>
      if s.msg.calledDone then (s, { c with pc := Pc.finished })
      else (s, { c with pc := Pc.atSet })
  | Pc.atSet => ({ s with msg := { s.msg with calledDone := true } }, { c with pc := Pc.atCall })
  | Pc.atCall =>
      match s.msg.doneFunc with
      | none => (s, { c with pc := Pc.finished })
      | some f =>
          let r := f s.msg.AckID c.ack s.msg.receiveTime s.world
          ({ s with world := r.1, calls := s.calls ++ [s.msg.invocation c.ack] },
            { c with pc := Pc.finished })
  | Pc.finished => (s, c)

/-- The message with the goroutines that race on it. -/
structure Race (Header W : Type) where
  /-- The shared state. -/
  shared : Exec Header W
  /-- The goroutines, each inside its own call. -/
  callers : List Caller

/-- The scheduler lets goroutine `i` execute its next statement. -/
def Race.step {Header W : Type} (r : Race Header W) (i : Nat) : Race Header W :=
  match r.callers[i]? with
  | none => r
  | some c =>
      let n := stepCaller r.shared c
      { shared := n.1, callers := r.callers.set i n.2 }

/-- An interleaving: the goroutines scheduled one statement at a time. -/
def Race.run {Header W : Type} (r : Race Header W) (schedule : List Nat) : Race Header W :=
  schedule.foldl Race.step r

/-- The start of a race: every goroutine is about to test the flag. -/
def Race.start {Header W : Type} (s : Exec Header W) (calls : List Call) : Race Header W :=
  { shared := s, callers := calls.map fun c => { ack := c.success, pc := Pc.atCheck } }

/-- Every goroutine has returned from its call. -/
def Race.allFinished {Header W : Type} (r : Race Header W) : Bool :=
  r.callers.all fun c => decide (c.pc = Pc.finished)

/-- The goroutine has not returned from its call yet. -/
def Caller.pending (c : Caller) : Bool := decide (c.pc ≠ Pc.finished)

/-- The goroutine is past its assignment to the flag. -/
def Caller.pastSet (c : Caller) : Bool := decide (c.pc = Pc.atCall ∨ c.pc = Pc.finished)

/-- The goroutine has set the flag and has not called the callback yet. -/
def Caller.aboutToCall (c : Caller) : Bool := decide (c.pc = Pc.atCall)

/-- The goroutine is between two calls of its own: it has not tested the flag
yet, or it has returned. -/
def Caller.idle (c : Caller) : Bool := decide (c.pc = Pc.atCheck ∨ c.pc = Pc.finished)

/-- What every interleaving keeps true of a race of `n` goroutines that started
from state `s` with callback `f` bound: the callback stays bound, earlier
invocations stay recorded, each goroutine accounts for at most one invocation,
nobody is past the assignment while the flag is clear, and once the flag is set
an invocation was made or is about to be made. -/
structure RaceInv {Header W : Type} (s : Exec Header W) (f : DoneFunc W) (n : Nat)
    (r : Race Header W) : Prop where
  /-- The callback is still bound. -/
  bound : r.shared.msg.doneFunc = some f
  /-- The record only grows. -/
  grows : s.calls.length ≤ r.shared.calls.length
  /-- At most one invocation for each goroutine that is not pending. -/
  upper : r.shared.calls.length + r.callers.countP Caller.pending ≤ s.calls.length + n
  /-- With the flag clear, no goroutine is past the assignment. -/
  clear : r.shared.msg.calledDone = false → r.callers.countP Caller.pastSet = 0
  /-- With the flag set, an invocation was made or is about to be. -/
  fired : r.shared.msg.calledDone = true →
    s.calls.length + 1 ≤ r.shared.calls.length + r.callers.countP Caller.aboutToCall

/-- The schedule that runs the calls one after another, in the order given:
each goroutine executes its three statements before the next one starts. -/
def serialSchedule (order : List Nat) : List Nat :=
  order.flatMap fun i => [i, i, i]

/-! ## The codec: `ToByte`, `ToMessage`, `Encode`, `Decode` -/

/-- Go's `error` values, carried by their message. -/
abbrev Error := String

/-- The exported fields of `Message`: the part of a message that
`encoding/gob` transmits. Gob encodes and decodes exported struct fields only;
unexported fields, among them a field of function type, are ignored. -/
structure Exported (Header : Type) where
  /-- Field `Id`. -/
  Id : String
  /-- Field `Data`. -/
  Data : List UInt8
  /-- Field `Attributes`. -/
  Attributes : Header
  /-- Field `Topic`. -/
  Topic : String
  /-- Field `AckID`. -/
  AckID : String

/-- The library `encoding/gob` at the type `Message`, taken as given:
`encode` is `gob.NewEncoder(buf).Encode(data)`, answering the bytes written to
the buffer and the error; `decode` is `gob.NewDecoder(buf).Decode(to)`, answering
the exported fields it leaves in the target, given the ones the target had, and
the error. -/
structure Gob (Header : Type) where
  /-- Encoding of the exported fields. -/
  encode : Exported Header → List UInt8 × Option Error
  /-- Decoding into a target with the given exported fields. -/
  decode : List UInt8 → Exported Header → Exported Header × Option Error

/-- The exported fields of a message. -/
def Message.exported {Header W : Type} (m : Message Header W) : Exported Header :=
  { Id := m.Id, Data := m.Data, Attributes := m.Attributes, Topic := m.Topic, AckID := m.AckID }

/-- The message with its exported fields replaced. -/
def Message.withExported {Header W : Type} (m : Message Header W) (e : Exported Header) :
    Message Header W :=
  { m with Id := e.Id, Data := e.Data, Attributes := e.Attributes, Topic := e.Topic,
           AckID := e.AckID }

/-- The value `Message{}`: every field at its zero value (`default` is the zero
value of `internal.Header`). -/
def Message.zero (Header W : Type) [Inhabited Header] : Message Header W :=
  { Id := "", Data := [], Attributes := default, Topic := "", AckID := "", specversion := "",
    typeName := "", source := "", destination := "", publishTime := 0, receiveTime := 0,
    calledDone := false, doneFunc := none }

/-- Function `Encode(data interface{}) ([]byte, error)` at a `*Message`: the
buffer's bytes and `nil`, or the nil slice and the encoder's error. -/
def Encode {Header W : Type} (gob : Gob Header) (data : Message Header W) :
    List UInt8 × Option Error :=
  match (gob.encode data.exported).2 with
  | some err => ([], some err)
  | none => ((gob.encode data.exported).1, none)

/-- Function `Decode(data []byte, to interface{}) error` at a `*Message`, the
parameter `to` under the name `target`: the target as the decoder leaves it, and
the decoder's error. -/
def Decode {Header W : Type} (gob : Gob Header) (data : List UInt8)
    (target : Message Header W) : Message Header W × Option Error :=
  (target.withExported (gob.decode data target.exported).1,
    (gob.decode data target.exported).2)

/-- Function `ToByte(m *Message) []byte`: the error of `Encode` is dropped. -/
def ToByte {Header W : Type} (gob : Gob Header) (m : Message Header W) : List UInt8 :=
  (Encode gob m).1

/-- Function `ToMessage(bytes []byte) (*Message, error)`; `none` is the nil
pointer and the nil error. -/
def ToMessage {Header W : Type} [Inhabited Header] (gob : Gob Header) (bytes : List UInt8) :
    Option (Message Header W) × Option Error :=
  match (Decode gob bytes (Message.zero Header W)).2 with
  | some err => (none, some err)
  | none => (some (Decode gob bytes (Message.zero Header W)).1, none)

/-- The codec transmits these exported fields faithfully: encoding them
succeeds, and decoding the bytes into a fresh `Message{}` yields them. -/
def Gob.roundTrips {Header : Type} [Inhabited Header] (gob : Gob Header)
    (e : Exported Header) : Prop :=
  (gob.encode e).2 = none ∧
  gob.decode (gob.encode e).1 (Message.zero Header Unit).exported = (e, none)

/-- A small codec for messages that carry data only: the bytes on the wire are
the field `Data`. -/
def dataOnlyGob : Gob (List (String × String)) :=
  { encode := fun e => (e.Data, none)
    decode := fun bytes target => ({ target with Data := bytes }, none) }

/-- A received message with data and both timestamps set. -/
def stampedMessage : Message (List (String × String)) Unit :=
  { zeroMessage Unit with Data := [1, 2, 3], publishTime := 41, receiveTime := 42 }

/-! ## Callbacks that call back into their message -/

/-- A statement of a callback's body: work on the driver's state, a call of
`Ack` or `Nack` on the message the callback is bound to, or a panic. -/
inductive Stmt (W : Type) where
  | effect (g : W → W) : Stmt W
  | call (c : Call) : Stmt W
  | fail (reason : String) : Stmt W

/-- A completion callback given by its body, for the three arguments it is
called with. A Go closure can name the message it is bound to; a function on the
driver's state alone cannot, so such a callback stands beside the message, as
the statements it executes. -/
abbrev Body (W : Type) := String → Bool → Time → List (Stmt W)

/-- Execution of pending statements on a message whose bound callback is
`body`, `fuel` bounding the number of steps (`none`: the bound was reached). A
`call` statement is `Ack`/`Nack`, that is `done`: with the flag set it returns
at once; with the flag clear it sets the flag and then enters the callback,
whose statements run before the rest. The call of the callback is the last
statement of `done`, so nothing of `done` remains after them. A panic unwinds
every pending statement. -/
def runStmts {Header W : Type} (body : Body W) :
    Nat → List (Stmt W) → Exec Header W → Option (Exec Header W × Ended)
  | 0, _, _ => none
  | _ + 1, [], s => some (s, Ended.returned)
  | n + 1, Stmt.effect g :: rest, s => runStmts body n rest { s with world := g s.world }
  | _ + 1, Stmt.fail reason :: _, s => some (s, Ended.panicked reason)
  | n + 1, Stmt.call c :: rest, s =>
      if s.msg.calledDone then runStmts body n rest s
      else
        runStmts body n
          (body s.msg.AckID c.success s.msg.receiveTime ++ rest)
          { s with msg := { s.msg with calledDone := true },
                   calls := s.calls ++ [s.msg.invocation c.success] }

/-- A call of `Ack` or `Nack` from outside, on a message whose bound callback
is `body`. -/
def Message.callReentrant {Header W : Type} (body : Body W) (fuel : Nat) (s : Exec Header W)
    (c : Call) : Option (Exec Header W × Ended) :=
  runStmts body fuel [Stmt.call c] s

/-- What a list of statements does when every `Ack`/`Nack` in it is a no-op:
the effects up to the first panic. -/
def settle {Header W : Type} : List (Stmt W) → Exec Header W → Exec Header W × Ended
  | [], s => (s, Ended.returned)
  | Stmt.effect g :: rest, s => settle rest { s with world := g s.world }
  | Stmt.call _ :: rest, s => settle rest s
  | Stmt.fail reason :: _, s => (s, Ended.panicked reason)

/-- A callback that counts, acknowledges its own message twice, and counts
again. -/
def eagerBody : Body Nat := fun _ _ _ =>
  [Stmt.effect (· + 1), Stmt.call Call.Ack, Stmt.call Call.Nack, Stmt.effect (· + 10)]

/-- A callback that counts, calls `Nack` on its own message and then panics. -/
def failingBody : Body Nat := fun _ _ _ =>
  [Stmt.effect (· + 1), Stmt.call Call.Nack, Stmt.fail "driver gone"]

/-- A delivered message for the two callbacks above. -/
def countedMessage : Message (List (String × String)) Nat :=
  { zeroMessage Nat with Id := "m-2", AckID := "ack-2", receiveTime := 7 }

end Whisper


namespace Retry

/-! ## Facts about the arithmetic -/

theorem wrapInt64_of_inRange (x : Int) (hlo : -(2 : Int) ^ 63 ≤ x) (hhi : x < (2 : Int) ^ 63) :
    wrapInt64 x = x := by
  unfold wrapInt64
  have h : (x + 2 ^ 63) % 2 ^ 64 = x + 2 ^ 63 := by
    apply Int.emod_eq_of_lt <;> omega
  omega

theorem wrapInt64_zero : wrapInt64 0 = 0 := by decide

theorem mulDuration_zero (a : Duration) : mulDuration a 0 = 0 := by
  simp [mulDuration, wrapInt64_zero]

theorem mulDuration_one (a : Duration) : mulDuration a 1 = wrapInt64 a := by
  simp [mulDuration]

theorem strategy_names_distinct :
    BackoffStrategyConstant ≠ BackoffStrategyLinear ∧
    BackoffStrategyConstant ≠ BackoffStrategyExponential ∧
    BackoffStrategyConstant ≠ BackoffStrategyNone ∧
    BackoffStrategyLinear ≠ BackoffStrategyExponential ∧
    BackoffStrategyLinear ≠ BackoffStrategyNone ∧
    BackoffStrategyExponential ≠ BackoffStrategyNone := by decide

theorem BackoffFor_of_constant (arch : Arch) (r : Params) (tries : Int)
    (h : r.Strategy = BackoffStrategyConstant) : r.BackoffFor arch tries = r.Period := by
  simp [Params.BackoffFor, h]

theorem BackoffFor_of_linear (arch : Arch) (r : Params) (tries : Int)
    (h : r.Strategy = BackoffStrategyLinear) :
    r.BackoffFor arch tries = mulDuration r.Period tries := by
  have hd := strategy_names_distinct
  have h1 : BackoffStrategyLinear ≠ BackoffStrategyConstant := fun e => hd.1 e.symm
  simp [Params.BackoffFor, h, h1]

theorem BackoffFor_of_exponential (arch : Arch) (r : Params) (tries : Int)
    (h : r.Strategy = BackoffStrategyExponential) :
    r.BackoffFor arch tries = mulDuration r.Period (toDuration arch (Exp2 tries)) := by
  have hd := strategy_names_distinct
  have h1 : BackoffStrategyExponential ≠ BackoffStrategyConstant := fun e => hd.2.1 e.symm
  have h2 : BackoffStrategyExponential ≠ BackoffStrategyLinear := fun e => hd.2.2.2.1 e.symm
  simp [Params.BackoffFor, h, h1, h2]

theorem BackoffFor_of_other (arch : Arch) (r : Params) (tries : Int)
    (hl : r.Strategy ≠ BackoffStrategyLinear) (he : r.Strategy ≠ BackoffStrategyExponential) :
    r.BackoffFor arch tries = r.Period := by
  simp [Params.BackoffFor, hl, he]

end Retry

namespace Retry

/-! ## `BackoffFor` -/

/-- C4: with the linear strategy `BackoffFor(tries)` is `Period * tries` in
wrapping 64-bit signed arithmetic, for every integer `tries`, negative ones
included; it is the exact product whenever that fits `int64`; and with
`Period = 10ms` the tries 0, 1, 5, 30 give 0ms, 10ms, 50ms, 300ms. -/
theorem BackoffFor_linear (arch : Arch) (r : Params) (tries : Int)
    (h : r.Strategy = BackoffStrategyLinear) :
    r.BackoffFor arch tries = wrapInt64 (r.Period * tries) ∧
    (-(2 : Int) ^ 63 ≤ r.Period * tries → r.Period * tries < (2 : Int) ^ 63 →
      r.BackoffFor arch tries = r.Period * tries) ∧
    (r.Period = 10 * Millisecond →
      r.BackoffFor arch 0 = 0 ∧
      r.BackoffFor arch 1 = 10 * Millisecond ∧
      r.BackoffFor arch 5 = 50 * Millisecond ∧
      r.BackoffFor arch 30 = 300 * Millisecond) := by
  refine ⟨?_, ?_, ?_⟩
  · rw [BackoffFor_of_linear arch r tries h]; rfl
  · intro hlo hhi
    rw [BackoffFor_of_linear arch r tries h]
    exact wrapInt64_of_inRange _ hlo hhi
  · intro hp
    simp only [BackoffFor_of_linear arch r _ h, hp]
    decide

/-- Witness for C4: the default parameters at `tries = -3`, where the product
is negative. -/
theorem BackoffFor_linear_witness :
    DefaultRetryParams.BackoffFor amd64 (-3) = -30 * Millisecond ∧
    DefaultRetryParams.BackoffFor amd64 30 = 300 * Millisecond :=
  ⟨((BackoffFor_linear amd64 DefaultRetryParams (-3) rfl).2.1 (by decide) (by decide)).trans
      (by decide),
    ((BackoffFor_linear amd64 DefaultRetryParams 0 rfl).2.2 rfl).2.2.2⟩

/-- C5, as the code has it: with the exponential strategy `BackoffFor(tries)` is
`Period * 2^tries` modulo `2^64` for `0 ≤ tries ≤ 62`; for negative `tries` the
power of two is a fraction that the conversion truncates to zero, so the result
is the zero duration; for `tries ≥ 63` the factor is what the implementation
converts an out-of-range `float64` to; with `Period = 1ms` and `tries = 3` the
result is 8ms. -/
theorem BackoffFor_exponential (arch : Arch) (r : Params) (tries : Int)
    (h : r.Strategy = BackoffStrategyExponential) :
    (0 ≤ tries → tries ≤ 62 →
      r.BackoffFor arch tries = wrapInt64 (r.Period * (2 : Int) ^ tries.toNat)) ∧
    (tries < 0 → r.BackoffFor arch tries = 0) ∧
    (62 < tries →
      r.BackoffFor arch tries =
        wrapInt64 (r.Period * wrapInt64 (arch.outOfRange (Exp2 tries)))) ∧
    (r.Period = Millisecond → r.BackoffFor arch 3 = 8 * Millisecond) := by
  refine ⟨?_, ?_, ?_, ?_⟩
  · intro h0 h62
    rw [BackoffFor_of_exponential arch r tries h]
    have e : Exp2 tries = Float64Pow2.pow2 tries := by
      unfold Exp2
      rw [if_neg (by omega), if_neg (by omega)]
    rw [e]
    simp only [toDuration, mulDuration]
    rw [if_neg (by omega), if_pos h62]
  · intro hneg
    rw [BackoffFor_of_exponential arch r tries h]
    have e : toDuration arch (Exp2 tries) = 0 := by
      unfold Exp2
      rw [if_neg (by omega)]
      by_cases hu : tries < -1074
      · rw [if_pos hu]; rfl
      · rw [if_neg hu]
        simp only [toDuration]
        rw [if_pos hneg]
    rw [e]
    exact mulDuration_zero _
  · intro hbig
    rw [BackoffFor_of_exponential arch r tries h]
    by_cases ho : tries > 1023
    · have e : Exp2 tries = Float64Pow2.posInf := by
        unfold Exp2
        rw [if_pos ho]
      rw [e]; rfl
    · have e : Exp2 tries = Float64Pow2.pow2 tries := by
        unfold Exp2
        rw [if_neg ho, if_neg (by omega)]
      rw [e]
      simp only [toDuration, mulDuration]
      rw [if_neg (by omega), if_neg (by omega)]
  · intro hp
    rw [BackoffFor_of_exponential arch r 3 h, hp]
    have e : toDuration arch (Exp2 3) = 8 := rfl
    rw [e]
    decide

/-- Witness for C5 as amended: 1ms doubled three times, and a negative try
count. -/
theorem BackoffFor_exponential_witness :
    Params.BackoffFor amd64 ⟨BackoffStrategyExponential, 30, Millisecond⟩ 3 = 8 * Millisecond ∧
    Params.BackoffFor amd64 ⟨BackoffStrategyExponential, 30, Millisecond⟩ (-2) = 0 :=
  ⟨(BackoffFor_exponential amd64 ⟨BackoffStrategyExponential, 30, Millisecond⟩ 3 rfl).2.2.2 rfl,
    (BackoffFor_exponential amd64 ⟨BackoffStrategyExponential, 30, Millisecond⟩ (-2) rfl).2.1
      (by decide)⟩

/-- C5 as stated fails: with the exponential strategy, `Period = 1ms` and
`tries = -1` the code answers the zero duration, while `Period * 2^tries` is
half a millisecond; and on amd64 with `Period = 1ns` and `tries = 64` it answers
`-2^63`, while `Period * 2^64` is zero modulo `2^64`. -/
theorem BackoffFor_exponential_counterexample :
    Params.BackoffFor amd64 ⟨BackoffStrategyExponential, 30, Millisecond⟩ (-1) = 0 ∧
    ((Params.BackoffFor amd64 ⟨BackoffStrategyExponential, 30, Millisecond⟩ (-1) : Int) : ℚ) ≠
      ((Millisecond : Int) : ℚ) * (2 : ℚ) ^ (-1 : Int) ∧
    Params.BackoffFor amd64 ⟨BackoffStrategyExponential, 30, Nanosecond⟩ 64 = -(2 : Int) ^ 63 ∧
    Params.BackoffFor amd64 ⟨BackoffStrategyExponential, 30, Nanosecond⟩ 64 ≠
      wrapInt64 (Nanosecond * (2 : Int) ^ 64) := by
  have h1 : Params.BackoffFor amd64 ⟨BackoffStrategyExponential, 30, Millisecond⟩ (-1) = 0 := by
    decide
  refine ⟨h1, ?_, by decide, by decide⟩
  rw [h1]
  have hm : Millisecond = 1000000 := by decide
  rw [hm]
  norm_num

/-- C6: when the strategy is none, constant, or a string that is none of the
four strategy names, `BackoffFor(tries)` is `Period`, whatever `tries` and
`MaxTries` are. -/
theorem BackoffFor_flat (arch : Arch) (r : Params) (tries : Int)
    (h : r.Strategy = BackoffStrategyNone ∨ r.Strategy = BackoffStrategyConstant ∨
      (r.Strategy ≠ BackoffStrategyNone ∧ r.Strategy ≠ BackoffStrategyConstant ∧
        r.Strategy ≠ BackoffStrategyLinear ∧ r.Strategy ≠ BackoffStrategyExponential)) :
    r.BackoffFor arch tries = r.Period ∧
    ∀ (tries2 maxTries : Int),
      Params.BackoffFor arch { r with MaxTries := maxTries } tries2 = r.Period := by
  have hd := strategy_names_distinct
  have hl : r.Strategy ≠ BackoffStrategyLinear := by
    rcases h with h | h | h
    · rw [h]; exact fun e => hd.2.2.2.2.1 e.symm
    · rw [h]; exact hd.1
    · exact h.2.2.1
  have he : r.Strategy ≠ BackoffStrategyExponential := by
    rcases h with h | h | h
    · rw [h]; exact fun e => hd.2.2.2.2.2 e.symm
    · rw [h]; exact hd.2.1
    · exact h.2.2.2
  exact ⟨BackoffFor_of_other arch r tries hl he,
    fun t mt => BackoffFor_of_other arch { r with MaxTries := mt } t hl he⟩

/-- Witness for C6: an unrecognised strategy name. -/
theorem BackoffFor_flat_witness :
    Params.BackoffFor amd64 ⟨"quadratic", 3, 7 * Millisecond⟩ 12 = 7 * Millisecond :=
  (BackoffFor_flat amd64 ⟨"quadratic", 3, 7 * Millisecond⟩ 12
    (Or.inr (Or.inr (by decide)))).1

/-- C7, as the code has it: at `tries = 0`, for a `Period` that is an `int64`,
`BackoffFor(0)` is `Period` with the constant strategy, the zero duration with
the linear strategy, and `Period` with the exponential strategy. -/
theorem BackoffFor_at_zero (arch : Arch) (r : Params)
    (hlo : -(2 : Int) ^ 63 ≤ r.Period) (hhi : r.Period < (2 : Int) ^ 63) :
    (r.Strategy = BackoffStrategyConstant → r.BackoffFor arch 0 = r.Period) ∧
    (r.Strategy = BackoffStrategyLinear → r.BackoffFor arch 0 = 0) ∧
    (r.Strategy = BackoffStrategyExponential → r.BackoffFor arch 0 = r.Period) := by
  refine ⟨fun h => BackoffFor_of_constant arch r 0 h, fun h => ?_, fun h => ?_⟩
  · rw [BackoffFor_of_linear arch r 0 h]
    exact mulDuration_zero _
  · rw [BackoffFor_of_exponential arch r 0 h]
    have e : toDuration arch (Exp2 0) = 1 := rfl
    rw [e, mulDuration_one]
    exact wrapInt64_of_inRange _ hlo hhi

/-- Witness for C7 as amended: the three strategies with a period of 10ms. -/
theorem BackoffFor_at_zero_witness :
    Params.BackoffFor amd64 ⟨BackoffStrategyConstant, 30, 10 * Millisecond⟩ 0 =
      10 * Millisecond ∧
    Params.BackoffFor amd64 ⟨BackoffStrategyLinear, 30, 10 * Millisecond⟩ 0 = 0 ∧
    Params.BackoffFor amd64 ⟨BackoffStrategyExponential, 30, 10 * Millisecond⟩ 0 =
      10 * Millisecond :=
  ⟨(BackoffFor_at_zero amd64 ⟨BackoffStrategyConstant, 30, 10 * Millisecond⟩
      (by decide) (by decide)).1 rfl,
    (BackoffFor_at_zero amd64 ⟨BackoffStrategyLinear, 30, 10 * Millisecond⟩
      (by decide) (by decide)).2.1 rfl,
    (BackoffFor_at_zero amd64 ⟨BackoffStrategyExponential, 30, 10 * Millisecond⟩
      (by decide) (by decide)).2.2 rfl⟩

/-- C7 as stated fails: with the constant strategy and `Period = 10ms`,
`BackoffFor(0)` is 10ms, not the zero duration. -/
theorem BackoffFor_at_zero_counterexample :
    Params.BackoffFor amd64 ⟨BackoffStrategyConstant, 30, 10 * Millisecond⟩ 0 =
      10 * Millisecond ∧
    Params.BackoffFor amd64 ⟨BackoffStrategyConstant, 30, 10 * Millisecond⟩ 0 ≠ 0 := by
  decide

end Retry

namespace Retry

/-! ## `Backoff` -/

theorem Backoff_of_exceeded (arch : Arch) (r : Params) (env : WaitEnv) (tries : Int)
    (h : tries > r.MaxTries) :
    r.Backoff arch env tries = (Outcome.returned (some BackoffError.ErrMaxRetry), []) := by
  unfold Params.Backoff
  rw [if_pos h]

theorem Backoff_of_nonpositive (arch : Arch) (r : Params) (env : WaitEnv) (tries : Int)
    (h : ¬ tries > r.MaxTries) (hd : r.BackoffFor arch tries ≤ 0) :
    r.Backoff arch env tries =
      (Outcome.panicked "non-positive interval for NewTicker",
        [BackoffEvent.backoffFor tries]) := by
  unfold Params.Backoff
  rw [if_neg h]
  simp only []
  rw [if_pos hd]

theorem Backoff_of_positive (arch : Arch) (r : Params) (env : WaitEnv) (tries : Int)
    (h : ¬ tries > r.MaxTries) (hd : 0 < r.BackoffFor arch tries) :
    r.Backoff arch env tries =
      (Outcome.returned
          (if env.cancelledFirst (r.BackoffFor arch tries) then some BackoffError.ErrCancel
            else none),
        [BackoffEvent.backoffFor tries, BackoffEvent.newTicker (r.BackoffFor arch tries),
          BackoffEvent.wait, BackoffEvent.stop]) := by
  unfold Params.Backoff
  rw [if_neg h]
  simp only []
  rw [if_neg (not_le.mpr hd)]
  by_cases hc : env.cancelledFirst (r.BackoffFor arch tries) = true
  · rw [if_pos hc, if_pos hc]
  · rw [if_neg hc, if_neg hc]

theorem Backoff_maxRetry_iff_aux (arch : Arch) (r : Params) (env : WaitEnv) (t : Int)
    (ht : ¬ t > r.MaxTries) :
    (r.Backoff arch env t).1 ≠ Outcome.returned (some BackoffError.ErrMaxRetry) := by
  by_cases hd : r.BackoffFor arch t ≤ 0
  · rw [Backoff_of_nonpositive arch r env t ht hd]
    simp
  · rw [Backoff_of_positive arch r env t ht (not_le.mp hd)]
    by_cases hc : env.cancelledFirst (r.BackoffFor arch t) = true
    · simp [hc]
    · simp [hc]

/-- C8: `Backoff` answers `ErrMaxRetry` exactly when `tries > MaxTries`, and
then no backoff duration was computed, no ticker created and no wait made; so
`tries = MaxTries + 1` is rejected with no event at all and `tries = MaxTries`
is not rejected. -/
theorem Backoff_maxRetry_iff (arch : Arch) (r : Params) (env : WaitEnv) (tries : Int) :
    ((r.Backoff arch env tries).1 = Outcome.returned (some BackoffError.ErrMaxRetry) ↔
      tries > r.MaxTries) ∧
    (tries > r.MaxTries → (r.Backoff arch env tries).2 = []) ∧
    r.Backoff arch env (r.MaxTries + 1) =
      (Outcome.returned (some BackoffError.ErrMaxRetry), []) ∧
    (r.Backoff arch env r.MaxTries).1 ≠ Outcome.returned (some BackoffError.ErrMaxRetry) := by
  have key := Backoff_maxRetry_iff_aux arch r env
  refine ⟨⟨fun h => ?_, fun h => ?_⟩, fun h => ?_, ?_, ?_⟩
  · by_contra hn
    exact key tries hn h
  · rw [Backoff_of_exceeded arch r env tries h]
  · rw [Backoff_of_exceeded arch r env tries h]
  · exact Backoff_of_exceeded arch r env _ (by omega)
  · exact key r.MaxTries (by omega)

/-- C9 at its failing input: with the default parameters and `tries = 0` the
guard passes, the computed wait is the zero duration, and `Backoff` panics in
`time.NewTicker` instead of ending with `nil` or `ErrCancel`; no ticker was
created and nothing was waited for. -/
theorem Backoff_zero_wait_panics (arch : Arch) (env : WaitEnv) :
    ¬ (0 : Int) > DefaultRetryParams.MaxTries ∧
    DefaultRetryParams.BackoffFor arch 0 = 0 ∧
    DefaultRetryParams.Backoff arch env 0 =
      (Outcome.panicked "non-positive interval for NewTicker",
        [BackoffEvent.backoffFor 0]) ∧
    (DefaultRetryParams.Backoff arch env 0).1 ≠ Outcome.returned none ∧
    (DefaultRetryParams.Backoff arch env 0).1 ≠
      Outcome.returned (some BackoffError.ErrCancel) := by
  have h0 : ¬ (0 : Int) > DefaultRetryParams.MaxTries := by decide
  have hd : DefaultRetryParams.BackoffFor arch 0 = 0 := by
    rw [BackoffFor_of_linear arch DefaultRetryParams 0 rfl]
    exact mulDuration_zero _
  have hb := Backoff_of_nonpositive arch DefaultRetryParams env 0 h0 (by rw [hd])
  refine ⟨h0, hd, hb, ?_, ?_⟩
  · rw [hb]; simp
  · rw [hb]; simp

/-- C10: `DefaultRetryParams` is (linear, 30, 10ms); for every `tries` from 1 to
30 its wait is `tries * 10ms` and `Backoff` does not answer `ErrMaxRetry` (it
ends with `nil` or `ErrCancel`); for `tries = 31` `Backoff` answers
`ErrMaxRetry`. -/
theorem DefaultRetryParams_series :
    DefaultRetryParams =
      { Strategy := BackoffStrategyLinear, MaxTries := 30, Period := 10 * Millisecond } ∧
    (∀ (arch : Arch) (env : WaitEnv) (tries : Int), 1 ≤ tries → tries ≤ 30 →
      DefaultRetryParams.BackoffFor arch tries = tries * (10 * Millisecond) ∧
      (DefaultRetryParams.Backoff arch env tries).1 ≠
        Outcome.returned (some BackoffError.ErrMaxRetry) ∧
      ((DefaultRetryParams.Backoff arch env tries).1 = Outcome.returned none ∨
        (DefaultRetryParams.Backoff arch env tries).1 =
          Outcome.returned (some BackoffError.ErrCancel))) ∧
    (∀ (arch : Arch) (env : WaitEnv),
      DefaultRetryParams.Backoff arch env 31 =
        (Outcome.returned (some BackoffError.ErrMaxRetry), [])) ∧
    (List.range 30).map (fun i => DefaultRetryParams.BackoffFor amd64 (i + 1)) =
      (List.range 30).map (fun i => (i + 1) * (10 * Millisecond)) := by
  have hm : Millisecond = 1000000 := by decide
  have hP : DefaultRetryParams.Period = 10000000 := by decide
  have hM : DefaultRetryParams.MaxTries = 30 := rfl
  refine ⟨rfl, ?_, ?_, by decide⟩
  · intro arch env tries h1 h30
    have hB : DefaultRetryParams.BackoffFor arch tries = tries * (10 * Millisecond) := by
      rw [BackoffFor_of_linear arch DefaultRetryParams tries rfl]
      unfold mulDuration
      have hlo : -(2 : Int) ^ 63 ≤ 10000000 * tries := by norm_num; omega
      have hhi : 10000000 * tries < (2 : Int) ^ 63 := by norm_num; omega
      rw [hP, wrapInt64_of_inRange _ hlo hhi, hm]
      ring
    have hgt : ¬ tries > DefaultRetryParams.MaxTries := by rw [hM]; omega
    have hpos : 0 < DefaultRetryParams.BackoffFor arch tries := by
      rw [hB, hm]; linarith
    refine ⟨hB, (Backoff_maxRetry_iff_aux arch DefaultRetryParams env tries hgt), ?_⟩
    rw [Backoff_of_positive arch DefaultRetryParams env tries hgt hpos]
    by_cases hc : env.cancelledFirst (DefaultRetryParams.BackoffFor arch tries) = true
    · right; simp [hc]
    · left; simp [hc]
  · intro arch env
    exact Backoff_of_exceeded arch DefaultRetryParams env 31 (by rw [hM]; omega)

end Retry

namespace Whisper

/-! ## `Ack` and `Nack` called one after another -/

theorem done_of_completed {Header W : Type} (s : Exec Header W) (ack : Bool)
    (h : s.msg.calledDone = true) : Message.done s ack = (s, Ended.returned) := by
  unfold Message.done
  rw [if_pos h]

theorem done_of_bound {Header W : Type} (s : Exec Header W) (f : DoneFunc W) (ack : Bool)
    (h : s.msg.calledDone = false) (hf : s.msg.doneFunc = some f) :
    Message.done s ack =
      ({ msg := { s.msg with calledDone := true },
         world := (f s.msg.AckID ack s.msg.receiveTime s.world).1,
         calls := s.calls ++ [s.msg.invocation ack] },
        (f s.msg.AckID ack s.msg.receiveTime s.world).2) := by
  unfold Message.done
  rw [if_neg (by simp [h])]
  simp only [hf]
  rfl

theorem done_of_unbound {Header W : Type} (s : Exec Header W) (ack : Bool)
    (h : s.msg.calledDone = false) (hf : s.msg.doneFunc = none) :
    Message.done s ack =
      ({ s with msg := { s.msg with calledDone := true } },
        Ended.panicked "invalid memory address or nil pointer dereference") := by
  unfold Message.done
  rw [if_neg (by simp [h])]
  simp only [hf]

theorem call_eq_done {Header W : Type} (s : Exec Header W) (c : Call) :
    Message.call s c = Message.done s c.success := by
  cases c <;> rfl

theorem runCalls_of_completed {Header W : Type} (cs : List Call) (s : Exec Header W)
    (h : s.msg.calledDone = true) : (runCalls s cs).1 = s := by
  induction cs with
  | nil => rfl
  | cons c cs ih =>
      simp only [runCalls, call_eq_done, done_of_completed s c.success h]
      exact ih

theorem runCalls_cons_of_bound {Header W : Type} (s : Exec Header W) (f : DoneFunc W)
    (c : Call) (cs : List Call)
    (h : s.msg.calledDone = false) (hf : s.msg.doneFunc = some f) :
    (runCalls s (c :: cs)).1 =
      { msg := { s.msg with calledDone := true },
        world := (f s.msg.AckID c.success s.msg.receiveTime s.world).1,
        calls := s.calls ++ [s.msg.invocation c.success] } := by
  simp only [runCalls, call_eq_done, done_of_bound s f c.success h hf]
  exact runCalls_of_completed cs _ rfl

/-- C1, as the code has it: for a message whose flag is clear and whose callback
is bound, and a non-empty sequence of `Ack`/`Nack` calls made one after another,
the first call invokes the callback once, with (AckID, success of that call,
receiveTime), and sets the flag; the whole sequence leaves exactly that one
invocation; and every later call finds the flag set, invokes nothing and
changes nothing. -/
theorem Ack_Nack_sequence_once {Header W : Type} (s : Exec Header W) (f : DoneFunc W)
    (c : Call) (cs : List Call)
    (hflag : s.msg.calledDone = false) (hf : s.msg.doneFunc = some f) :
    (Message.call s c).1.calls =
      s.calls ++ [{ ackID := s.msg.AckID, success := c.success,
                    receiveTime := s.msg.receiveTime }] ∧
    (Message.call s c).1.world = (f s.msg.AckID c.success s.msg.receiveTime s.world).1 ∧
    (Message.call s c).1.msg.calledDone = true ∧
    (runCalls s (c :: cs)).1.calls =
      s.calls ++ [{ ackID := s.msg.AckID, success := c.success,
                    receiveTime := s.msg.receiveTime }] ∧
    (runCalls s (c :: cs)).1.world =
      (f s.msg.AckID c.success s.msg.receiveTime s.world).1 ∧
    (runCalls s (c :: cs)).1.msg.calledDone = true ∧
    (∀ (pre : List Call) (d : Call) (suf : List Call), cs = pre ++ d :: suf →
      (runCalls s (c :: pre)).1.msg.calledDone = true ∧
      Message.call (runCalls s (c :: pre)).1 d = ((runCalls s (c :: pre)).1, Ended.returned)) := by
  refine ⟨?_, ?_, ?_, ?_, ?_, ?_, ?_⟩
  · rw [call_eq_done, done_of_bound s f c.success hflag hf]; rfl
  · rw [call_eq_done, done_of_bound s f c.success hflag hf]
  · rw [call_eq_done, done_of_bound s f c.success hflag hf]
  · rw [runCalls_cons_of_bound s f c cs hflag hf]; rfl
  · rw [runCalls_cons_of_bound s f c cs hflag hf]
  · rw [runCalls_cons_of_bound s f c cs hflag hf]
  · intro pre d suf _
    rw [runCalls_cons_of_bound s f c pre hflag hf]
    exact ⟨rfl, by rw [call_eq_done]; exact done_of_completed _ _ rfl⟩

/-- Witness for C1 as amended: `Nack`, then `Ack`, then `Ack` on a delivered
message invoke the callback once, with `success = false`. -/
theorem Ack_Nack_sequence_once_witness :
    (runCalls ⟨deliveredMessage, (), []⟩ [Call.Nack, Call.Ack, Call.Ack]).1.calls =
      [{ ackID := "ack-1", success := false, receiveTime := 42 }] :=
  (Ack_Nack_sequence_once ⟨deliveredMessage, (), []⟩ quietCallback Call.Nack
    [Call.Ack, Call.Ack] rfl rfl).2.2.2.1

/-- C1 as stated fails: a message whose flag is clear but that has no callback
bound (what `ToMessage` returns) gets no callback invocation from `Ack`, alone
or followed by `Nack`; the first call panics on the nil function value. -/
theorem Ack_Nack_sequence_once_counterexample :
    (zeroMessage Unit).calledDone = false ∧
    (runCalls ⟨zeroMessage Unit, (), []⟩ [Call.Ack]).1.calls = [] ∧
    (runCalls ⟨zeroMessage Unit, (), []⟩ [Call.Ack, Call.Nack]).1.calls = [] ∧
    (runCalls ⟨zeroMessage Unit, (), []⟩ [Call.Ack, Call.Nack]).2 =
      [Ended.panicked "invalid memory address or nil pointer dereference", Ended.returned] := by
  decide

/-- C2, as the code has it: a call of `Ack` or `Nack` returns normally exactly
when the message is already completed, or has a callback bound whose invocation
returns normally; on a completed message the call changes nothing. -/
theorem Ack_Nack_returns_iff {Header W : Type} (s : Exec Header W) (c : Call) :
    ((Message.call s c).2 = Ended.returned ↔
      (s.msg.calledDone = true ∨
        ∃ f, s.msg.doneFunc = some f ∧
          (f s.msg.AckID c.success s.msg.receiveTime s.world).2 = Ended.returned)) ∧
    (s.msg.calledDone = true → Message.call s c = (s, Ended.returned)) := by
  rw [call_eq_done]
  refine ⟨?_, fun h => done_of_completed s c.success h⟩
  by_cases hflag : s.msg.calledDone = true
  · rw [done_of_completed s c.success hflag]
    exact ⟨fun _ => Or.inl hflag, fun _ => rfl⟩
  · have hclear : s.msg.calledDone = false := by simpa using hflag
    cases hf : s.msg.doneFunc with
    | none =>
        rw [done_of_unbound s c.success hclear hf]
        constructor
        · intro h
          cases h
        · rintro (h | ⟨f, hf2, _⟩)
          · exact absurd h hflag
          · cases hf2
    | some f =>
        rw [done_of_bound s f c.success hclear hf]
        constructor
        · intro h
          exact Or.inr ⟨f, rfl, h⟩
        · rintro (h | ⟨g, hg, hret⟩)
          · exact absurd h hflag
          · cases hg
            exact hret

/-- C2 as stated fails: on a message with no callback bound and the flag clear
(what `ToMessage` returns), `Ack` and `Nack` panic on the nil function value. -/
theorem Ack_Nack_unbound_counterexample :
    (zeroMessage Unit).doneFunc.isNone = true ∧
    (Message.Ack ⟨zeroMessage Unit, (), []⟩).2 =
      Ended.panicked "invalid memory address or nil pointer dereference" ∧
    (Message.Nack ⟨zeroMessage Unit, (), []⟩).2 =
      Ended.panicked "invalid memory address or nil pointer dereference" ∧
    (Message.Ack ⟨zeroMessage Unit, (), []⟩).2 ≠ Ended.returned ∧
    (Message.Nack ⟨zeroMessage Unit, (), []⟩).2 ≠ Ended.returned := by
  decide

end Whisper

namespace Whisper

/-! ## `Ack` and `Nack` racing from several goroutines -/

theorem countP_set_split (p : Caller → Bool) :
    ∀ (l : List Caller) (i : Nat) (c c2 : Caller), l[i]? = some c →
      ∃ k, l.countP p = k + (if p c then 1 else 0) ∧
        (l.set i c2).countP p = k + (if p c2 then 1 else 0)
  | [], i, c, c2, h => by simp at h
  | a :: t, 0, c, c2, h => by
      simp at h
      subst h
      exact ⟨t.countP p, by simp [List.countP_cons], by simp [List.countP_cons]⟩
  | a :: t, i + 1, c, c2, h => by
      simp at h
      obtain ⟨k, h1, h2⟩ := countP_set_split p t i c c2 h
      refine ⟨k + (if p a then 1 else 0), ?_, ?_⟩
      · simp only [List.countP_cons, h1]; omega
      · simp only [List.set_cons_succ, List.countP_cons, h2]; omega

theorem Race.step_of_none {Header W : Type} (r : Race Header W) (i : Nat)
    (h : r.callers[i]? = none) : r.step i = r := by
  simp only [Race.step, h]

theorem Race.step_of_some {Header W : Type} (r : Race Header W) (i : Nat) (c : Caller)
    (h : r.callers[i]? = some c) :
    r.step i = { shared := (stepCaller r.shared c).1,
                 callers := r.callers.set i (stepCaller r.shared c).2 } := by
  simp only [Race.step, h]

theorem RaceInv.start {Header W : Type} (s : Exec Header W) (f : DoneFunc W)
    (calls : List Call) (hflag : s.msg.calledDone = false) (hf : s.msg.doneFunc = some f) :
    RaceInv s f calls.length (Race.start s calls) := by
  have hall : ∀ c ∈ (Race.start s calls).callers, c.pc = Pc.atCheck := by
    intro c hc
    simp only [Race.start, List.mem_map] at hc
    obtain ⟨_, _, rfl⟩ := hc
    rfl
  have hlen : (Race.start s calls).callers.length = calls.length := by
    simp [Race.start]
  refine ⟨hf, le_refl _, ?_, fun _ => ?_, fun h => ?_⟩
  · have := List.countP_le_length Caller.pending (l := (Race.start s calls).callers)
    have hs : (Race.start s calls).shared = s := rfl
    rw [hs]
    omega
  · rw [List.countP_eq_zero]
    intro c hc
    simp [Caller.pastSet, hall c hc]
  · have hs : (Race.start s calls).shared = s := rfl
    rw [hs, hflag] at h
    cases h

theorem RaceInv.step {Header W : Type} {s : Exec Header W} {f : DoneFunc W} {n : Nat}
    {r : Race Header W} (h : RaceInv s f n r) (i : Nat) : RaceInv s f n (r.step i) := by
  cases hc : r.callers[i]? with
  | none => rw [Race.step_of_none r i hc]; exact h
  | some c =>
      rw [Race.step_of_some r i c hc]
      obtain ⟨ack, pc⟩ := c
      obtain ⟨hb, hg, hu, hcl, hfi⟩ := h
      cases pc with
      | atCheck =>
          by_cases hflag : r.shared.msg.calledDone = true
          · obtain ⟨k1, a1, b1⟩ := countP_set_split Caller.pending r.callers i _
              { ack := ack, pc := Pc.finished } hc
            obtain ⟨k3, a3, b3⟩ := countP_set_split Caller.aboutToCall r.callers i _
              { ack := ack, pc := Pc.finished } hc
            simp only [Caller.pending, Caller.aboutToCall] at a1 b1 a3 b3
            simp at a1 b1 a3 b3
            refine ⟨?_, ?_, ?_, ?_, ?_⟩ <;> simp only [stepCaller, hflag, if_true]
            · exact hb
            · exact hg
            · omega
            · intro hx; cases hx
            · intro _; have := hfi hflag; omega
          · have hclear : r.shared.msg.calledDone = false := by simpa using hflag
            obtain ⟨k1, a1, b1⟩ := countP_set_split Caller.pending r.callers i _
              { ack := ack, pc := Pc.atSet } hc
            obtain ⟨k2, a2, b2⟩ := countP_set_split Caller.pastSet r.callers i _
              { ack := ack, pc := Pc.atSet } hc
            simp only [Caller.pending, Caller.pastSet] at a1 b1 a2 b2
            simp at a1 b1 a2 b2
            refine ⟨?_, ?_, ?_, ?_, ?_⟩ <;>
              simp only [stepCaller, hclear, Bool.false_eq_true, if_false]
            · exact hb
            · exact hg
            · omega
            · intro _; have := hcl hclear; omega
            · intro hx; cases hx
      | atSet =>
          obtain ⟨k1, a1, b1⟩ := countP_set_split Caller.pending r.callers i _
            { ack := ack, pc := Pc.atCall } hc
          obtain ⟨k3, a3, b3⟩ := countP_set_split Caller.aboutToCall r.callers i _
            { ack := ack, pc := Pc.atCall } hc
          simp only [Caller.pending, Caller.aboutToCall] at a1 b1 a3 b3
          simp at a1 b1 a3 b3
          refine ⟨?_, ?_, ?_, ?_, ?_⟩ <;> simp only [stepCaller]
          · exact hb
          · exact hg
          · omega
          · intro hx; cases hx
          · intro _; omega
      | atCall =>
          obtain ⟨k1, a1, b1⟩ := countP_set_split Caller.pending r.callers i _
            { ack := ack, pc := Pc.finished } hc
          obtain ⟨k2, a2, b2⟩ := countP_set_split Caller.pastSet r.callers i _
            { ack := ack, pc := Pc.finished } hc
          obtain ⟨k3, a3, b3⟩ := countP_set_split Caller.aboutToCall r.callers i _
            { ack := ack, pc := Pc.finished } hc
          simp only [Caller.pending, Caller.pastSet, Caller.aboutToCall] at a1 b1 a2 b2 a3 b3
          simp at a1 b1 a2 b2 a3 b3
          refine ⟨?_, ?_, ?_, ?_, ?_⟩ <;>
            simp only [stepCaller, hb, List.length_append, List.length_singleton]
          · omega
          · omega
          · intro hx; have := hcl hx; omega
          · intro hx; have := hfi hx; omega
      | finished =>
          have hset : r.callers.set i { ack := ack, pc := Pc.finished } = r.callers := by
            apply List.ext_getElem?
            intro j
            by_cases hij : i = j
            · subst hij
              rw [List.getElem?_set_eq_of_lt _ (by
                rcases List.getElem?_eq_some.mp hc with ⟨hlt, _⟩; exact hlt), hc]
            · rw [List.getElem?_set_ne hij]
          simp only [stepCaller, hset]
          exact ⟨hb, hg, hu, hcl, hfi⟩

theorem RaceInv.run {Header W : Type} {s : Exec Header W} {f : DoneFunc W} {n : Nat}
    (schedule : List Nat) :
    ∀ {r : Race Header W}, RaceInv s f n r → RaceInv s f n (r.run schedule) := by
  induction schedule with
  | nil => intro r h; exact h
  | cons i rest ih =>
      intro r h
      exact ih (RaceInv.step h i)

end Whisper

namespace Whisper

theorem Race.step_length {Header W : Type} (r : Race Header W) (i : Nat) :
    (r.step i).callers.length = r.callers.length := by
  cases hc : r.callers[i]? with
  | none => rw [Race.step_of_none r i hc]
  | some c => rw [Race.step_of_some r i c hc]; simp

theorem Race.run_length {Header W : Type} (schedule : List Nat) :
    ∀ (r : Race Header W), (r.run schedule).callers.length = r.callers.length := by
  induction schedule with
  | nil => intro r; rfl
  | cons i rest ih =>
      intro r
      exact (ih (r.step i)).trans (Race.step_length r i)

theorem Race.run_append {Header W : Type} (r : Race Header W) (a b : List Nat) :
    r.run (a ++ b) = (r.run a).run b := by
  simp only [Race.run, List.foldl_append]

theorem Race.step_idle {Header W : Type} (r : Race Header W) (i : Nat)
    (hflag : r.shared.msg.calledDone = true) (hq : ∀ c ∈ r.callers, c.idle = true) :
    (r.step i).shared = r.shared ∧ ∀ c ∈ (r.step i).callers, c.idle = true := by
  cases hc : r.callers[i]? with
  | none => rw [Race.step_of_none r i hc]; exact ⟨rfl, hq⟩
  | some c =>
      rw [Race.step_of_some r i c hc]
      have hmem : c ∈ r.callers := by
        obtain ⟨hlt, he⟩ := List.getElem?_eq_some.mp hc
        rw [← he]
        exact List.getElem_mem hlt
      have hidle := hq c hmem
      obtain ⟨ack, pc⟩ := c
      have hstep : stepCaller r.shared { ack := ack, pc := pc } =
          (r.shared, { ack := ack, pc := Pc.finished }) := by
        cases pc with
        | atCheck => simp only [stepCaller, hflag, if_true]
        | atSet => simp [Caller.idle] at hidle
        | atCall => simp [Caller.idle] at hidle
        | finished => simp only [stepCaller]
      rw [hstep]
      refine ⟨rfl, fun d hd => ?_⟩
      rcases List.mem_or_eq_of_mem_set hd with h | h
      · exact hq d h
      · rw [h]; rfl

theorem Race.run_idle {Header W : Type} (schedule : List Nat) :
    ∀ (r : Race Header W), r.shared.msg.calledDone = true →
      (∀ c ∈ r.callers, c.idle = true) → (r.run schedule).shared = r.shared := by
  induction schedule with
  | nil => intro r _ _; rfl
  | cons i rest ih =>
      intro r hflag hq
      obtain ⟨hs, hq2⟩ := Race.step_idle r i hflag hq
      have h := ih (r.step i) (by rw [hs]; exact hflag) hq2
      exact h.trans hs

theorem Race.run_one_call {Header W : Type} (s : Exec Header W) (f : DoneFunc W)
    (calls : List Call) (i : Nat) (hi : i < calls.length)
    (hflag : s.msg.calledDone = false) (hf : s.msg.doneFunc = some f) :
    (Race.start s calls).run [i, i, i] =
      { shared := (Message.call s calls[i]).1,
        callers := (Race.start s calls).callers.set i
          { ack := calls[i].success, pc := Pc.finished } } := by
  have hlen : i < (Race.start s calls).callers.length := by simpa [Race.start] using hi
  have h0 : (Race.start s calls).callers[i]? =
      some { ack := calls[i].success, pc := Pc.atCheck } := by
    simp [Race.start, List.getElem?_eq_getElem hi]
  have hs : (Race.start s calls).shared = s := rfl
  have e1 : (Race.start s calls).step i =
      { shared := s,
        callers := (Race.start s calls).callers.set i
          { ack := calls[i].success, pc := Pc.atSet } } := by
    rw [Race.step_of_some _ i _ h0]
    simp only [stepCaller, hs, hflag, Bool.false_eq_true, if_false]
  have e2 : Race.step
      { shared := s,
        callers := (Race.start s calls).callers.set i
          { ack := calls[i].success, pc := Pc.atSet } } i =
      { shared := { s with msg := { s.msg with calledDone := true } },
        callers := (Race.start s calls).callers.set i
          { ack := calls[i].success, pc := Pc.atCall } } := by
    rw [Race.step_of_some _ i { ack := calls[i].success, pc := Pc.atSet }
      (List.getElem?_set_eq_of_lt _ hlen)]
    simp only [stepCaller, List.set_set]
  have e3 : Race.step
      { shared := { s with msg := { s.msg with calledDone := true } },
        callers := (Race.start s calls).callers.set i
          { ack := calls[i].success, pc := Pc.atCall } } i =
      { shared := (Message.call s calls[i]).1,
        callers := (Race.start s calls).callers.set i
          { ack := calls[i].success, pc := Pc.finished } } := by
    rw [Race.step_of_some _ i { ack := calls[i].success, pc := Pc.atCall }
      (List.getElem?_set_eq_of_lt _ hlen)]
    simp only [stepCaller, hf, List.set_set]
    rw [call_eq_done, done_of_bound s f _ hflag hf]
    simp only [Message.invocation, hf]
  simp only [Race.run, List.foldl_cons, List.foldl_nil]
  rw [e1, e2, e3]

theorem Race.run_serial {Header W : Type} (s : Exec Header W) (f : DoneFunc W)
    (calls : List Call) (i : Nat) (rest : List Nat) (hi : i < calls.length)
    (hflag : s.msg.calledDone = false) (hf : s.msg.doneFunc = some f) :
    ((Race.start s calls).run (serialSchedule (i :: rest))).shared =
      (Message.call s calls[i]).1 := by
  have hsched : serialSchedule (i :: rest) = [i, i, i] ++ serialSchedule rest := by
    simp [serialSchedule]
  rw [hsched, Race.run_append, Race.run_one_call s f calls i hi hflag hf]
  apply Race.run_idle
  · rw [call_eq_done, done_of_bound s f _ hflag hf]
  · intro c hc
    rcases List.mem_or_eq_of_mem_set hc with h | h
    · simp only [Race.start, List.mem_map] at h
      obtain ⟨_, _, rfl⟩ := h
      rfl
    · rw [h]; rfl

/-- C3, as the code has it: the test of the flag and its assignment are two
separate statements with nothing to make them atomic. For a message with the
flag clear and a callback bound, and goroutines racing with `Ack`/`Nack` (at
least one): in every interleaving the callback is invoked at most once for each
racing call; once all calls have returned it was invoked at least once and the
flag is set; and when the calls do not overlap (each runs its three statements
before the next starts) the result is that of the first call alone, a single
invocation. -/
theorem race_callback_bounds {Header W : Type} (s : Exec Header W) (f : DoneFunc W)
    (calls : List Call) (schedule : List Nat)
    (hflag : s.msg.calledDone = false) (hf : s.msg.doneFunc = some f) (hne : calls ≠ []) :
    ((Race.start s calls).run schedule).shared.calls.length ≤
      s.calls.length + calls.length ∧
    (((Race.start s calls).run schedule).allFinished = true →
      s.calls.length + 1 ≤ ((Race.start s calls).run schedule).shared.calls.length ∧
      ((Race.start s calls).run schedule).shared.msg.calledDone = true) ∧
    (∀ (i : Nat) (rest : List Nat) (hi : i < calls.length),
      ((Race.start s calls).run (serialSchedule (i :: rest))).shared =
        (Message.call s calls[i]).1 ∧
      ((Race.start s calls).run (serialSchedule (i :: rest))).shared.calls =
        s.calls ++ [s.msg.invocation calls[i].success]) := by
  have hinv := RaceInv.run schedule (RaceInv.start s f calls hflag hf)
  have hlen : ((Race.start s calls).run schedule).callers.length = calls.length := by
    rw [Race.run_length]; simp [Race.start]
  have hpos : 0 < calls.length := List.length_pos.mpr hne
  refine ⟨?_, ?_, ?_⟩
  · have := hinv.upper
    omega
  · intro hfin
    have hall : ∀ c ∈ ((Race.start s calls).run schedule).callers, c.pc = Pc.finished := by
      intro c hc
      have := List.all_eq_true.mp hfin c hc
      simpa using this
    have hpast : ((Race.start s calls).run schedule).callers.countP Caller.pastSet =
        ((Race.start s calls).run schedule).callers.length := by
      rw [List.countP_eq_length]
      intro c hc
      simp [Caller.pastSet, hall c hc]
    have hcall : ((Race.start s calls).run schedule).callers.countP Caller.aboutToCall = 0 := by
      rw [List.countP_eq_zero]
      intro c hc
      simp [Caller.aboutToCall, hall c hc]
    have hset : ((Race.start s calls).run schedule).shared.msg.calledDone = true := by
      by_contra hn
      have hclear : ((Race.start s calls).run schedule).shared.msg.calledDone = false := by
        simpa using hn
      have := hinv.clear hclear
      omega
    have := hinv.fired hset
    exact ⟨by omega, hset⟩
  · intro i rest hi
    have h := Race.run_serial s f calls i rest hi hflag hf
    refine ⟨h, ?_⟩
    rw [h, call_eq_done, done_of_bound s f _ hflag hf]

/-- Witness for C3 as amended: `Ack` and `Nack` racing on a delivered message,
interleaved statement by statement. -/
theorem race_callback_bounds_witness :
    ((Race.start ⟨deliveredMessage, (), []⟩ [Call.Ack, Call.Nack]).run
      [0, 1, 0, 1, 0, 1]).shared.calls.length ≤ 0 + 2 ∧
    ((Race.start ⟨deliveredMessage, (), []⟩ [Call.Ack, Call.Nack]).run
      (serialSchedule [1, 0])).shared.calls =
        [{ ackID := "ack-1", success := false, receiveTime := 42 }] :=
  ⟨(race_callback_bounds ⟨deliveredMessage, (), []⟩ quietCallback [Call.Ack, Call.Nack]
      [0, 1, 0, 1, 0, 1] rfl rfl (by decide)).1,
    ((race_callback_bounds ⟨deliveredMessage, (), []⟩ quietCallback [Call.Ack, Call.Nack]
      [] rfl rfl (by decide)).2.2 1 [0] (by decide)).2⟩

/-- C3 as stated fails: with `Ack` and `Nack` racing on a delivered message,
the interleaving in which both goroutines test the flag before either sets it
lets both proceed, and the callback is invoked twice. -/
theorem race_callback_twice_counterexample :
    ((Race.start ⟨deliveredMessage, (), []⟩ [Call.Ack, Call.Nack]).run
      [0, 1, 0, 1, 0, 1]).allFinished = true ∧
    ((Race.start ⟨deliveredMessage, (), []⟩ [Call.Ack, Call.Nack]).run
      [0, 1, 0, 1, 0, 1]).shared.calls =
        [{ ackID := "ack-1", success := true, receiveTime := 42 },
         { ackID := "ack-1", success := false, receiveTime := 42 }] ∧
    ((Race.start ⟨deliveredMessage, (), []⟩ [Call.Ack, Call.Nack]).run
      [0, 1, 0, 1, 0, 1]).shared.calls.length ≠ 1 := by
  decide

end Whisper

namespace Retry

/-! ## Retry sequences, the documented formulas, the ticker -/

theorem notRejected_eq (arch : Arch) (r : Params) (env : WaitEnv) (tries : Int) :
    r.notRejected arch env tries = decide (tries ≤ r.MaxTries) := by
  unfold Params.notRejected
  by_cases h : tries > r.MaxTries
  · rw [Backoff_of_exceeded arch r env tries h]
    have hn : ¬ tries ≤ r.MaxTries := by omega
    simp [hn]
  · have hle : tries ≤ r.MaxTries := by omega
    simp [hle, Backoff_maxRetry_iff_aux arch r env tries h]

theorem retriesGranted_succ (arch : Arch) (r : Params) (envs : Nat → WaitEnv) (k : Nat) :
    r.retriesGranted arch envs (k + 1) =
      r.retriesGranted arch envs k + (if (k : Int) ≤ r.MaxTries then 1 else 0) := by
  unfold Params.retriesGranted
  rw [List.range_succ, List.filter_append, List.length_append]
  congr 1
  by_cases h : (k : Int) ≤ r.MaxTries
  · simp [List.filter, notRejected_eq, h]
  · simp [List.filter, notRejected_eq, h]

theorem retriesGranted_eq (arch : Arch) (r : Params) (envs : Nat → WaitEnv) (n : Nat)
    (hn : r.MaxTries = (n : Int)) :
    ∀ k : Nat, r.retriesGranted arch envs k = min k (n + 1) := by
  intro k
  induction k with
  | zero => simp [Params.retriesGranted]
  | succ k ih =>
      rw [retriesGranted_succ, ih, hn]
      by_cases h : k ≤ n
      · have hc : (k : Int) ≤ (n : Int) := by omega
        rw [if_pos hc]
        omega
      · have hc : ¬ (k : Int) ≤ (n : Int) := by omega
        rw [if_neg hc]
        omega

/-- C11 at its failing inputs: in a retry sequence with `tries = 0, 1, 2, ...`
and `MaxTries = n`, the calls not answered with `ErrMaxRetry` are those with
`tries = 0, ..., n`, which are `n + 1` calls, one more than `MaxTries`: three
for `MaxTries = 2`, thirty-one for the default parameters. -/
theorem retriesGranted_one_more (arch : Arch) (r : Params) (envs : Nat → WaitEnv)
    (n k : Nat) :
    Params.retriesGranted arch { r with MaxTries := (n : Int) } envs k = min k (n + 1) ∧
    Params.retriesGranted arch { r with MaxTries := (n : Int) } envs (n + 1) = n + 1 ∧
    Params.retriesGranted arch
      { Strategy := BackoffStrategyConstant, MaxTries := 2, Period := 10 * Millisecond }
      envs 3 = 3 ∧
    Params.retriesGranted arch DefaultRetryParams envs 31 = 31 := by
  refine ⟨retriesGranted_eq arch _ envs n rfl k, ?_, ?_, ?_⟩
  · rw [retriesGranted_eq arch _ envs n rfl (n + 1)]
    omega
  · exact retriesGranted_eq arch _ envs 2 rfl 3
  · exact retriesGranted_eq arch DefaultRetryParams envs 30 rfl 31

/-- C15 at its failing input: with the none strategy and `Period = 10ms`,
`BackoffFor` answers 10ms for every `tries`, not the zero duration. -/
theorem BackoffFor_none_delays (arch : Arch) (tries : Int) :
    Params.BackoffFor arch
      { Strategy := BackoffStrategyNone, MaxTries := 30, Period := 10 * Millisecond } tries =
      10 * Millisecond ∧
    Params.BackoffFor arch
      { Strategy := BackoffStrategyNone, MaxTries := 30, Period := 10 * Millisecond } tries ≠
      0 := by
  have h : Params.BackoffFor arch
      { Strategy := BackoffStrategyNone, MaxTries := 30, Period := 10 * Millisecond } tries =
      10 * Millisecond :=
    BackoffFor_of_other arch _ tries (by decide) (by decide)
  refine ⟨h, ?_⟩
  rw [h]
  decide

/-- C16 at its failing input: with the exponential strategy and `Period = 1ms`,
`BackoffFor(3)` is 8ms (`Period * 2^3`), not 9ms (`Period * 3 * 3`), and
`BackoffFor(0)` is 1ms, not zero. -/
theorem BackoffFor_exponential_doubles (arch : Arch) :
    Params.BackoffFor arch
      { Strategy := BackoffStrategyExponential, MaxTries := 30, Period := Millisecond } 3 =
      8 * Millisecond ∧
    Params.BackoffFor arch
      { Strategy := BackoffStrategyExponential, MaxTries := 30, Period := Millisecond } 3 ≠
      Millisecond * 3 * 3 ∧
    Params.BackoffFor arch
      { Strategy := BackoffStrategyExponential, MaxTries := 30, Period := Millisecond } 0 =
      Millisecond ∧
    Params.BackoffFor arch
      { Strategy := BackoffStrategyExponential, MaxTries := 30, Period := Millisecond } 0 ≠
      Millisecond * 0 * 0 := by
  have e3 : toDuration arch (Exp2 3) = 8 := rfl
  have e0 : toDuration arch (Exp2 0) = 1 := rfl
  have h3 : Params.BackoffFor arch
      { Strategy := BackoffStrategyExponential, MaxTries := 30, Period := Millisecond } 3 =
      8 * Millisecond := by
    rw [BackoffFor_of_exponential arch _ 3 rfl, e3]
    decide
  have h0 : Params.BackoffFor arch
      { Strategy := BackoffStrategyExponential, MaxTries := 30, Period := Millisecond } 0 =
      Millisecond := by
    rw [BackoffFor_of_exponential arch _ 0 rfl, e0]
    decide
  refine ⟨h3, ?_, h0, ?_⟩
  · rw [h3]; decide
  · rw [h0]; decide

theorem BackoffFor_default_one (arch : Arch) :
    DefaultRetryParams.BackoffFor arch 1 = 10 * Millisecond := by
  rw [BackoffFor_of_linear arch DefaultRetryParams 1 rfl]
  decide

/-- C17 at its failing input, with what holds elsewhere. With the default
parameters and `tries = 0` the guard passes (`tries ≤ MaxTries`), yet `Backoff`
panics in `time.NewTicker`: no ticker is created, `Stop` is never called and the
call does not return. For every `tries ≤ MaxTries` whose wait is positive,
`Backoff` creates one ticker, waits, calls `Stop` once as its last event and
returns `nil` or `ErrCancel` (the default parameters at `tries = 1` do so with a
10ms ticker); and for every `tries > MaxTries` it returns `ErrMaxRetry` with no
event, so no ticker. -/
theorem Backoff_ticker_release (arch : Arch) (env : WaitEnv) :
    ((0 : Int) ≤ DefaultRetryParams.MaxTries ∧
      DefaultRetryParams.Backoff arch env 0 =
        (Outcome.panicked "non-positive interval for NewTicker",
          [BackoffEvent.backoffFor 0]) ∧
      (DefaultRetryParams.Backoff arch env 0).2.countP BackoffEvent.isNewTicker = 0 ∧
      (DefaultRetryParams.Backoff arch env 0).2.countP BackoffEvent.isStop = 0) ∧
    (∀ (r : Params) (tries : Int), tries ≤ r.MaxTries → 0 < r.BackoffFor arch tries →
      ((r.Backoff arch env tries).1 = Outcome.returned none ∨
        (r.Backoff arch env tries).1 = Outcome.returned (some BackoffError.ErrCancel)) ∧
      (r.Backoff arch env tries).2 =
        [BackoffEvent.backoffFor tries, BackoffEvent.newTicker (r.BackoffFor arch tries),
          BackoffEvent.wait, BackoffEvent.stop] ∧
      (r.Backoff arch env tries).2.countP BackoffEvent.isNewTicker = 1 ∧
      (r.Backoff arch env tries).2.countP BackoffEvent.isStop = 1) ∧
    (((DefaultRetryParams.Backoff arch env 1).1 = Outcome.returned none ∨
        (DefaultRetryParams.Backoff arch env 1).1 =
          Outcome.returned (some BackoffError.ErrCancel)) ∧
      (DefaultRetryParams.Backoff arch env 1).2 =
        [BackoffEvent.backoffFor 1, BackoffEvent.newTicker (10 * Millisecond),
          BackoffEvent.wait, BackoffEvent.stop]) ∧
    (∀ (r : Params) (tries : Int), tries > r.MaxTries →
      r.Backoff arch env tries = (Outcome.returned (some BackoffError.ErrMaxRetry), []) ∧
      (r.Backoff arch env tries).2.countP BackoffEvent.isNewTicker = 0) := by
  have hpos : ∀ (r : Params) (tries : Int), tries ≤ r.MaxTries →
      0 < r.BackoffFor arch tries →
      ((r.Backoff arch env tries).1 = Outcome.returned none ∨
        (r.Backoff arch env tries).1 = Outcome.returned (some BackoffError.ErrCancel)) ∧
      (r.Backoff arch env tries).2 =
        [BackoffEvent.backoffFor tries, BackoffEvent.newTicker (r.BackoffFor arch tries),
          BackoffEvent.wait, BackoffEvent.stop] ∧
      (r.Backoff arch env tries).2.countP BackoffEvent.isNewTicker = 1 ∧
      (r.Backoff arch env tries).2.countP BackoffEvent.isStop = 1 := by
    intro r tries hle hd
    have hgt : ¬ tries > r.MaxTries := by omega
    rw [Backoff_of_positive arch r env tries hgt hd]
    refine ⟨?_, rfl, ?_, ?_⟩
    · by_cases hc : env.cancelledFirst (r.BackoffFor arch tries) = true
      · right; simp [hc]
      · left; simp [hc]
    · simp [BackoffEvent.isNewTicker, List.countP_cons]
    · simp [BackoffEvent.isStop, List.countP_cons]
  have h0 : ¬ (0 : Int) > DefaultRetryParams.MaxTries := by decide
  have hd0 : DefaultRetryParams.BackoffFor arch 0 = 0 := by
    rw [BackoffFor_of_linear arch DefaultRetryParams 0 rfl]
    exact mulDuration_zero _
  have hb := Backoff_of_nonpositive arch DefaultRetryParams env 0 h0 (by rw [hd0])
  have h1 := hpos DefaultRetryParams 1 (by decide)
    (by rw [BackoffFor_default_one arch]; decide)
  rw [BackoffFor_default_one arch] at h1
  refine ⟨⟨by decide, hb, ?_, ?_⟩, hpos, ⟨h1.1, h1.2.1⟩, ?_⟩
  · rw [hb]; simp [BackoffEvent.isNewTicker]
  · rw [hb]; simp [BackoffEvent.isStop]
  · intro r tries hgt
    rw [Backoff_of_exceeded arch r env tries hgt]
    exact ⟨rfl, rfl⟩

end Retry

namespace Retry

/-! ## Waits do not shrink -/

theorem BackoffFor_exponential_inRange (arch : Arch) (r : Params) (tries : Int)
    (h : r.Strategy = BackoffStrategyExponential) (h0 : 0 ≤ tries) (h62 : tries ≤ 62) :
    r.BackoffFor arch tries = wrapInt64 (r.Period * (2 : Int) ^ tries.toNat) := by
  rw [BackoffFor_of_exponential arch r tries h]
  have e : Exp2 tries = Float64Pow2.pow2 tries := by
    unfold Exp2
    rw [if_neg (by omega), if_neg (by omega)]
  rw [e]
  simp only [toDuration, mulDuration]
  rw [if_neg (by omega), if_pos h62]

theorem pow_two_mono (a b : Nat) (h : a ≤ b) : (2 : Int) ^ a ≤ (2 : Int) ^ b := by
  obtain ⟨d, rfl⟩ := Nat.exists_eq_add_of_le h
  rw [pow_add]
  have h1 : (0 : Int) < 2 ^ a := by positivity
  have h2 : (1 : Int) ≤ 2 ^ d := one_le_pow₀ (by norm_num)
  nlinarith

/-- C19: with `Period ≥ 0` and `0 ≤ t1 ≤ t2`, the wait for `t1` is at most the
wait for `t2` with the linear strategy when `Period * t2` fits `int64`, and with
the exponential strategy when `t2 ≤ 62` and `Period * 2^t2` fits `int64`; with
every other strategy (none, constant, unrecognised) the wait is the same for
every two try counts. -/
theorem BackoffFor_monotone (arch : Arch) (r : Params) (t1 t2 : Int)
    (hP : 0 ≤ r.Period) (h1 : 0 ≤ t1) (h12 : t1 ≤ t2) :
    (r.Strategy = BackoffStrategyLinear → r.Period * t2 < (2 : Int) ^ 63 →
      r.BackoffFor arch t1 ≤ r.BackoffFor arch t2) ∧
    (r.Strategy = BackoffStrategyExponential → t2 ≤ 62 →
      r.Period * (2 : Int) ^ t2.toNat < (2 : Int) ^ 63 →
      r.BackoffFor arch t1 ≤ r.BackoffFor arch t2) ∧
    (r.Strategy ≠ BackoffStrategyLinear → r.Strategy ≠ BackoffStrategyExponential →
      ∀ a b : Int, r.BackoffFor arch a = r.BackoffFor arch b) := by
  have h2 : 0 ≤ t2 := le_trans h1 h12
  refine ⟨fun hs hfit => ?_, fun hs h62 hfit => ?_, fun hl he a b => ?_⟩
  · have hmono : r.Period * t1 ≤ r.Period * t2 := mul_le_mul_of_nonneg_left h12 hP
    have hnn1 : 0 ≤ r.Period * t1 := mul_nonneg hP h1
    have hnn2 : 0 ≤ r.Period * t2 := mul_nonneg hP h2
    have hneg : -(2 : Int) ^ 63 ≤ 0 := by norm_num
    rw [BackoffFor_of_linear arch r t1 hs, BackoffFor_of_linear arch r t2 hs]
    unfold mulDuration
    rw [wrapInt64_of_inRange _ (le_trans hneg hnn1) (lt_of_le_of_lt hmono hfit),
      wrapInt64_of_inRange _ (le_trans hneg hnn2) hfit]
    exact hmono
  · have hpow : (2 : Int) ^ t1.toNat ≤ (2 : Int) ^ t2.toNat :=
      pow_two_mono _ _ (Int.toNat_le_toNat h12)
    have hmono : r.Period * (2 : Int) ^ t1.toNat ≤ r.Period * (2 : Int) ^ t2.toNat :=
      mul_le_mul_of_nonneg_left hpow hP
    have hnn1 : 0 ≤ r.Period * (2 : Int) ^ t1.toNat := mul_nonneg hP (by positivity)
    have hnn2 : 0 ≤ r.Period * (2 : Int) ^ t2.toNat := mul_nonneg hP (by positivity)
    have hneg : -(2 : Int) ^ 63 ≤ 0 := by norm_num
    rw [BackoffFor_exponential_inRange arch r t1 hs h1 (le_trans h12 h62),
      BackoffFor_exponential_inRange arch r t2 hs h2 h62,
      wrapInt64_of_inRange _ (le_trans hneg hnn1) (lt_of_le_of_lt hmono hfit),
      wrapInt64_of_inRange _ (le_trans hneg hnn2) hfit]
    exact hmono
  · rw [BackoffFor_of_other arch r a hl he, BackoffFor_of_other arch r b hl he]

/-- Witness for C19: the default parameters between the 3rd and the 30th try,
and 1ms doubled between the 2nd and the 10th try. -/
theorem BackoffFor_monotone_witness :
    DefaultRetryParams.BackoffFor amd64 3 ≤ DefaultRetryParams.BackoffFor amd64 30 ∧
    Params.BackoffFor amd64 ⟨BackoffStrategyExponential, 30, Millisecond⟩ 2 ≤
      Params.BackoffFor amd64 ⟨BackoffStrategyExponential, 30, Millisecond⟩ 10 :=
  ⟨(BackoffFor_monotone amd64 DefaultRetryParams 3 30 (by decide) (by decide)
      (by decide)).1 rfl (by decide),
    (BackoffFor_monotone amd64 ⟨BackoffStrategyExponential, 30, Millisecond⟩ 2 10
      (by decide) (by decide) (by decide)).2.1 rfl (by decide) (by decide)⟩

end Retry

namespace Whisper

/-! ## The codec -/

theorem ToMessage_of_failed {Header W : Type} [Inhabited Header] (gob : Gob Header)
    (bytes : List UInt8) (err : Error)
    (h : (Decode gob bytes (Message.zero Header W)).2 = some err) :
    (ToMessage gob bytes : Option (Message Header W) × Option Error) = (none, some err) := by
  unfold ToMessage
  rw [h]

theorem ToMessage_of_decoded {Header W : Type} [Inhabited Header] (gob : Gob Header)
    (bytes : List UInt8) (h : (Decode gob bytes (Message.zero Header W)).2 = none) :
    (ToMessage gob bytes : Option (Message Header W) × Option Error) =
      (some (Decode gob bytes (Message.zero Header W)).1, none) := by
  unfold ToMessage
  rw [h]

/-- C12: for every byte sequence, `ToMessage` answers either the decoded
message with a nil error, when `Decode` into a fresh `Message{}` returned nil,
or a nil message with exactly the error `Decode` returned; so it answers a
message exactly when it answers no error, and the target a failed `Decode` left
behind is not handed out. -/
theorem ToMessage_message_or_error {Header W : Type} [Inhabited Header] (gob : Gob Header)
    (bytes : List UInt8) :
    (((Decode gob bytes (Message.zero Header W)).2 = none ∧
        (ToMessage gob bytes : Option (Message Header W) × Option Error) =
          (some (Decode gob bytes (Message.zero Header W)).1, none)) ∨
      (∃ err, (Decode gob bytes (Message.zero Header W)).2 = some err ∧
        (ToMessage gob bytes : Option (Message Header W) × Option Error) =
          (none, some err))) ∧
    ((ToMessage gob bytes : Option (Message Header W) × Option Error).1.isSome = true ↔
      (ToMessage gob bytes : Option (Message Header W) × Option Error).2 = none) := by
  cases h : (Decode gob bytes (Message.zero Header W)).2 with
  | none =>
      rw [ToMessage_of_decoded gob bytes h]
      exact ⟨Or.inl ⟨rfl, rfl⟩, by simp⟩
  | some err =>
      rw [ToMessage_of_failed gob bytes err h]
      exact ⟨Or.inr ⟨err, rfl, rfl⟩, by simp⟩

theorem ToMessage_receiveTime {Header W : Type} [Inhabited Header] (gob : Gob Header)
    (bytes : List UInt8) (m2 : Message Header W)
    (h : (ToMessage gob bytes : Option (Message Header W) × Option Error) = (some m2, none)) :
    m2.receiveTime = 0 ∧ m2.publishTime = 0 := by
  cases hd : (Decode gob bytes (Message.zero Header W)).2 with
  | none =>
      rw [ToMessage_of_decoded gob bytes hd] at h
      have hm : (Decode gob bytes (Message.zero Header W)).1 = m2 := by
        injection h with h1 _
        injection h1
      rw [← hm]
      exact ⟨rfl, rfl⟩
  | some err =>
      rw [ToMessage_of_failed gob bytes err hd] at h
      injection h with h1 _
      cases h1

/-- C13, as the code has it: when the codec transmits the exported fields of
`m` faithfully, `ToMessage(ToByte(m))` succeeds and yields a message equal to
`m` over the exported fields `Id`, `Data`, `Attributes`, `Topic`, `AckID`; the
unexported fields are not transmitted and come back at their zero values: both
timestamps zero, the flag clear, no callback bound. -/
theorem ToMessage_ToByte_exported {Header W : Type} [Inhabited Header] (gob : Gob Header)
    (m : Message Header W) (h : gob.roundTrips m.exported) :
    (ToMessage gob (ToByte gob m) : Option (Message Header W) × Option Error) =
      (some ((Message.zero Header W).withExported m.exported), none) ∧
    ((Message.zero Header W).withExported m.exported).Id = m.Id ∧
    ((Message.zero Header W).withExported m.exported).Data = m.Data ∧
    ((Message.zero Header W).withExported m.exported).Attributes = m.Attributes ∧
    ((Message.zero Header W).withExported m.exported).Topic = m.Topic ∧
    ((Message.zero Header W).withExported m.exported).AckID = m.AckID ∧
    ((Message.zero Header W).withExported m.exported).publishTime = 0 ∧
    ((Message.zero Header W).withExported m.exported).receiveTime = 0 ∧
    ((Message.zero Header W).withExported m.exported).calledDone = false ∧
    ((Message.zero Header W).withExported m.exported).doneFunc.isNone = true := by
  refine ⟨?_, rfl, rfl, rfl, rfl, rfl, rfl, rfl, rfl, rfl⟩
  obtain ⟨henc, hdec⟩ := h
  have hbytes : ToByte gob m = (gob.encode m.exported).1 := by
    unfold ToByte Encode
    rw [henc]
  have hz : (Message.zero Header W).exported = (Message.zero Header Unit).exported := rfl
  have hD : Decode gob (ToByte gob m) (Message.zero Header W) =
      ((Message.zero Header W).withExported m.exported, none) := by
    unfold Decode
    rw [hbytes, hz, hdec]
  rw [ToMessage_of_decoded gob _ (by rw [hD]), hD]

/-- Witness for C13 as amended: a message that carries data and timestamps,
through a codec that transmits its exported fields. -/
theorem ToMessage_ToByte_exported_witness :
    dataOnlyGob.roundTrips stampedMessage.exported ∧
    (ToMessage dataOnlyGob (ToByte dataOnlyGob stampedMessage) :
        Option (Message (List (String × String)) Unit) × Option Error) =
      (some ((Message.zero (List (String × String)) Unit).withExported
        stampedMessage.exported), none) :=
  ⟨⟨rfl, rfl⟩, (ToMessage_ToByte_exported dataOnlyGob stampedMessage ⟨rfl, rfl⟩).1⟩

/-- C13 as stated fails: a message with receive time 42 and publish time 41
comes back from `ToMessage(ToByte(m))` with both timestamps zero (here through
a codec that transmits its exported fields), and no codec at all makes
`ToMessage` return its receive time, since the timestamps are unexported fields
that `ToMessage` leaves at the zero value of `Message{}`. -/
theorem ToMessage_ToByte_timestamps_counterexample :
    stampedMessage.receiveTime = 42 ∧
    ((ToMessage dataOnlyGob (ToByte dataOnlyGob stampedMessage) :
        Option (Message (List (String × String)) Unit) × Option Error).1.map
      fun m => (m.Data, m.publishTime, m.receiveTime)) = some ([1, 2, 3], 0, 0) ∧
    ¬ ∃ (gob : Gob (List (String × String))) (m2 : Message (List (String × String)) Unit),
      ToMessage gob (ToByte gob stampedMessage) = (some m2, none) ∧
      m2.receiveTime = stampedMessage.receiveTime := by
  refine ⟨rfl, by decide, ?_⟩
  rintro ⟨gob, m2, h, ht⟩
  have h0 := (ToMessage_receiveTime gob _ m2 h).1
  rw [h0] at ht
  exact absurd ht (by decide)

/-! ## What `Ack` and `Nack` leave alone -/

/-- C14: a call of `Ack` or `Nack` changes nothing of the message but the
completion flag, which it leaves set: `Id`, `Data`, `Attributes`, `Topic`,
`AckID`, the other unexported fields, both timestamps and the bound callback
are as before; and on an already completed message the call changes nothing at
all, neither the message nor the driver's state nor the record of
invocations. -/
theorem Ack_Nack_frame {Header W : Type} (s : Exec Header W) (c : Call) :
    (Message.call s c).1.msg.Id = s.msg.Id ∧
    (Message.call s c).1.msg.Data = s.msg.Data ∧
    (Message.call s c).1.msg.Attributes = s.msg.Attributes ∧
    (Message.call s c).1.msg.Topic = s.msg.Topic ∧
    (Message.call s c).1.msg.AckID = s.msg.AckID ∧
    (Message.call s c).1.msg.publishTime = s.msg.publishTime ∧
    (Message.call s c).1.msg.receiveTime = s.msg.receiveTime ∧
    (Message.call s c).1.msg.doneFunc = s.msg.doneFunc ∧
    (Message.call s c).1.msg.specversion = s.msg.specversion ∧
    (Message.call s c).1.msg.typeName = s.msg.typeName ∧
    (Message.call s c).1.msg.source = s.msg.source ∧
    (Message.call s c).1.msg.destination = s.msg.destination ∧
    (Message.call s c).1.msg.calledDone = true ∧
    (s.msg.calledDone = true → Message.call s c = (s, Ended.returned)) := by
  rw [call_eq_done]
  by_cases hflag : s.msg.calledDone = true
  · rw [done_of_completed s c.success hflag]
    exact ⟨rfl, rfl, rfl, rfl, rfl, rfl, rfl, rfl, rfl, rfl, rfl, rfl, hflag, fun _ => rfl⟩
  · have hclear : s.msg.calledDone = false := by simpa using hflag
    cases hf : s.msg.doneFunc with
    | none =>
        rw [done_of_unbound s c.success hclear hf]
        exact ⟨rfl, rfl, rfl, rfl, rfl, rfl, rfl, hf, rfl, rfl, rfl, rfl, rfl,
          fun h => absurd h hflag⟩
    | some f =>
        rw [done_of_bound s f c.success hclear hf]
        exact ⟨rfl, rfl, rfl, rfl, rfl, rfl, rfl, hf, rfl, rfl, rfl, rfl, rfl,
          fun h => absurd h hflag⟩

end Whisper

namespace Whisper

/-! ## Callbacks that call back into their message -/

theorem settle_frame {Header W : Type} :
    ∀ (l : List (Stmt W)) (s : Exec Header W),
      (settle l s).1.calls = s.calls ∧ (settle l s).1.msg = s.msg
  | [], _ => ⟨rfl, rfl⟩
  | Stmt.effect g :: rest, s => by
      simp only [settle]
      exact settle_frame rest _
  | Stmt.call _ :: rest, s => by
      simp only [settle]
      exact settle_frame rest s
  | Stmt.fail _ :: _, _ => ⟨rfl, rfl⟩

theorem runStmts_of_completed {Header W : Type} (body : Body W) :
    ∀ (l : List (Stmt W)) (fuel : Nat) (s : Exec Header W),
      s.msg.calledDone = true → l.length + 1 ≤ fuel →
      runStmts body fuel l s = some (settle l s)
  | [], fuel, s, _, hfuel => by
      obtain ⟨n, rfl⟩ : ∃ n, fuel = n + 1 := ⟨fuel - 1, by omega⟩
      simp only [runStmts, settle]
  | Stmt.effect g :: rest, fuel, s, hflag, hfuel => by
      obtain ⟨n, rfl⟩ : ∃ n, fuel = n + 1 := ⟨fuel - 1, by omega⟩
      simp only [runStmts, settle]
      exact runStmts_of_completed body rest n _ hflag
        (by simp only [List.length_cons] at hfuel; omega)
  | Stmt.call c :: rest, fuel, s, hflag, hfuel => by
      obtain ⟨n, rfl⟩ : ∃ n, fuel = n + 1 := ⟨fuel - 1, by omega⟩
      simp only [runStmts, settle, hflag, if_true]
      exact runStmts_of_completed body rest n s hflag
        (by simp only [List.length_cons] at hfuel; omega)
  | Stmt.fail reason :: rest, fuel, s, _, hfuel => by
      obtain ⟨n, rfl⟩ : ∃ n, fuel = n + 1 := ⟨fuel - 1, by omega⟩
      simp only [runStmts, settle]

theorem callReentrant_of_completed {Header W : Type} (body : Body W) (fuel : Nat)
    (s : Exec Header W) (c : Call) (hflag : s.msg.calledDone = true) (hfuel : 2 ≤ fuel) :
    Message.callReentrant body fuel s c = some (s, Ended.returned) := by
  unfold Message.callReentrant
  rw [runStmts_of_completed body [Stmt.call c] fuel s hflag (by simpa using hfuel)]
  rfl

theorem callReentrant_of_clear {Header W : Type} (body : Body W) (fuel : Nat)
    (s : Exec Header W) (c : Call) (hflag : s.msg.calledDone = false)
    (hfuel : (body s.msg.AckID c.success s.msg.receiveTime).length + 2 ≤ fuel) :
    Message.callReentrant body fuel s c =
      some (settle (body s.msg.AckID c.success s.msg.receiveTime)
        { s with msg := { s.msg with calledDone := true },
                 calls := s.calls ++ [s.msg.invocation c.success] }) := by
  obtain ⟨n, rfl⟩ : ∃ n, fuel = n + 1 := ⟨fuel - 1, by omega⟩
  unfold Message.callReentrant
  simp only [runStmts, hflag, Bool.false_eq_true, if_false, List.append_nil]
  exact runStmts_of_completed body _ n _ rfl (by omega)

/-- A callback that does not call back is the callback of `done`: for a body
made of one effect, the call on the message with that body is the call on the
message with the corresponding function bound. -/
theorem callReentrant_refines_call {Header W : Type} (g : String → Bool → Time → W → W)
    (fuel : Nat) (s : Exec Header W) (c : Call) (hflag : s.msg.calledDone = false)
    (hf : s.msg.doneFunc = some fun a b t w => (g a b t w, Ended.returned))
    (hfuel : 3 ≤ fuel) :
    Message.callReentrant (fun a b t => [Stmt.effect (g a b t)]) fuel s c =
      some (Message.call s c) := by
  rw [callReentrant_of_clear _ fuel s c hflag (by simpa using hfuel), call_eq_done,
    done_of_bound s _ c.success hflag hf]
  rfl

/-- C18: for a message with the flag clear whose callback calls `Ack` or `Nack`
on the same message, an outer call of `Ack` or `Nack` terminates (every fuel
from the length of the body plus two on gives the same result); the body is
entered exactly once, with the arguments of the outer call, and the calls nested
in it are no-ops; the flag is set afterwards; and whether the callback returned
or failed, every later `Ack` or `Nack` returns at once and invokes nothing. -/
theorem reentrant_done_once {Header W : Type} (body : Body W) (s : Exec Header W) (c : Call)
    (fuel : Nat) (hflag : s.msg.calledDone = false)
    (hfuel : (body s.msg.AckID c.success s.msg.receiveTime).length + 2 ≤ fuel) :
    ∃ r : Exec Header W × Ended,
      Message.callReentrant body fuel s c = some r ∧
      r = settle (body s.msg.AckID c.success s.msg.receiveTime)
        { s with msg := { s.msg with calledDone := true },
                 calls := s.calls ++ [s.msg.invocation c.success] } ∧
      r.1.calls =
        s.calls ++ [{ ackID := s.msg.AckID, success := c.success,
                      receiveTime := s.msg.receiveTime }] ∧
      r.1.msg.calledDone = true ∧
      ∀ (c2 : Call) (fuel2 : Nat), 2 ≤ fuel2 →
        Message.callReentrant body fuel2 r.1 c2 = some (r.1, Ended.returned) := by
  have hrun := callReentrant_of_clear body fuel s c hflag hfuel
  have hframe := settle_frame (body s.msg.AckID c.success s.msg.receiveTime)
    ({ s with msg := { s.msg with calledDone := true },
              calls := s.calls ++ [s.msg.invocation c.success] } : Exec Header W)
  refine ⟨_, hrun, rfl, ?_, ?_, ?_⟩
  · rw [hframe.1]; rfl
  · rw [hframe.2]
  · intro c2 fuel2 h2
    exact callReentrant_of_completed body fuel2 _ c2 (by rw [hframe.2]) h2

/-- Witness for C18: a callback that acknowledges its own message twice is
entered once by an outer `Ack`, and both of its effects happen; a callback that
calls `Nack` on its own message and then panics is entered once as well, and
leaves the flag set. -/
theorem reentrant_done_once_witness :
    (Message.callReentrant eagerBody 6
        (⟨countedMessage, 0, []⟩ : Exec (List (String × String)) Nat) Call.Ack).map
      (fun r => (r.1.calls, r.1.world, r.2)) =
      some ([{ ackID := "ack-2", success := true, receiveTime := 7 }], 11, Ended.returned) ∧
    (Message.callReentrant failingBody 5
        (⟨countedMessage, 0, []⟩ : Exec (List (String × String)) Nat) Call.Ack).map
      (fun r => (r.1.calls, r.1.world, r.2, r.1.msg.calledDone)) =
      some ([{ ackID := "ack-2", success := true, receiveTime := 7 }], 1,
        Ended.panicked "driver gone", true) := by
  obtain ⟨r, hr, hs, _, _, _⟩ :=
    reentrant_done_once eagerBody
      (⟨countedMessage, 0, []⟩ : Exec (List (String × String)) Nat) Call.Ack 6 rfl (by decide)
  obtain ⟨r2, hr2, hs2, _, _, _⟩ :=
    reentrant_done_once failingBody
      (⟨countedMessage, 0, []⟩ : Exec (List (String × String)) Nat) Call.Ack 5 rfl (by decide)
  rw [hr, hs, hr2, hs2]
  exact ⟨rfl, rfl⟩

end Whisper
